import Mathlib

/-!
# Verification of the semver-release-action decision engine

A shallow embedding of the Python modules `src/tags.py`, `src/aliases.py`,
`src/branch.py` and `src/main.py` of the semver-release-action repository.

Modelling conventions:
* Tag and branch names are Lean `String`s; regex matching is modelled by
  deterministic character-list parsers.  All regexes in the source have the
  shape `^literal-prefix(\d+)...$` in which every `\d+` group is immediately
  followed by a non-digit literal (or the end of the string), so greedy
  maximal-munch parsing is exactly equivalent to the backtracking regex
  semantics: a shorter match of a digit group leaves a digit as the next
  character, which can never match the following non-digit literal.
* Python `f"..."` formatting of a non-negative int is modelled by `natToStr`.
* The GitHub API collaborator is modelled as a fixed snapshot `Api` holding
  the repository's tag listing plus the branch-commit lookup; every call the
  engine makes to the collaborator is recorded in a trace of `ApiCall`s.
  Mutation requests (`createTag`, `updateTag`) are recorded in the trace;
  the snapshot itself is held fixed during one invocation, matching the
  collaborator semantics the unit tests mock.
* `sys.exit(1)` inside a handler is modelled by `Except.error 1`.
-/

/-- Value of a decimal digit character, as Python `int()` reads it:
`c.toNat - 48`. -/
def digitVal (c : Char) : Nat := c.toNat - 48

/-- Python `int()` applied to a non-empty string of decimal digits
(leading zeros are simply ignored by the conversion). -/
def digitsToNat (l : List Char) : Nat :=
  l.foldl (fun acc c => acc * 10 + digitVal c) 0

/-- The decimal digit character for `d < 10`. -/
def digitChar (d : Nat) : Char := Char.ofNat (48 + d)

/-- Fuel-driven decimal printer (most significant digit first). -/
def natToDigitsAux : Nat → Nat → List Char
  | 0, _ => []
  | fuel + 1, n =>
      if n < 10 then [digitChar n]
      else natToDigitsAux fuel (n / 10) ++ [digitChar (n % 10)]

/-- Decimal digits of `n`, modelling Python `f"{n}"` for a non-negative
int: no sign, no leading zeros (except `"0"` itself). -/
def natToDigits (n : Nat) : List Char := natToDigitsAux (n + 1) n

/-- Python `f"{n}"` for a non-negative int, as a `String`. -/
def natToStr (n : Nat) : String := ⟨natToDigits n⟩

/-- Strip a literal prefix from a character list.  Models the
`re.escape(prefix)` part of every pattern in the source: the escaped prefix
matches exactly itself, so matching it consumes exactly the prefix. -/
def stripLit : List Char → List Char → Option (List Char)
  | [], s => some s
  | _ :: _, [] => none
  | p :: ps, c :: cs => if c = p then stripLit ps cs else none

/-- One `(\d+)` regex group followed by a non-digit: greedily read a
non-empty run of digits, returning its value and the rest. -/
def readNum (s : List Char) : Option (Nat × List Char) :=
  let d := s.takeWhile Char.isDigit
  if d = [] then none else some (digitsToNat d, s.dropWhile Char.isDigit)

/-- Match one literal character (a non-special regex character such as
`\.`). -/
def expectChar (c : Char) : List Char → Option (List Char)
  | [] => none
  | x :: r => if x = c then some r else none

/-- Matcher for the RC suffix `(\d+)\.(\d+)\.0-rc(\d+)$` used by
`_create_rc_pattern` in `src/tags.py`: digit group, literal `.`, digit
group, literal `.0-rc`, digit group, end of string. -/
def parseRcSuffix (s : List Char) : Option (Nat × Nat × Nat) :=
  (readNum s).bind fun p1 =>
    (expectChar '.' p1.2).bind fun r2 =>
      (readNum r2).bind fun p2 =>
        (stripLit ['.', '0', '-', 'r', 'c'] p2.2).bind fun r4 =>
          (readNum r4).bind fun p3 =>
            if p3.2 = [] then some (p1.1, p2.1, p3.1) else none

/-- Matcher for the GA/patch suffix `(\d+)\.(\d+)\.(\d+)$` used by
`_create_patch_pattern` in `src/tags.py` and (identically) in
`src/aliases.py`. -/
def parsePatchSuffix (s : List Char) : Option (Nat × Nat × Nat) :=
  (readNum s).bind fun p1 =>
    (expectChar '.' p1.2).bind fun r2 =>
      (readNum r2).bind fun p2 =>
        (expectChar '.' p2.2).bind fun r4 =>
          (readNum r4).bind fun p3 =>
            if p3.2 = [] then some (p1.1, p2.1, p3.1) else none

/-- Full RC-pattern match `^{escaped-prefix}(\d+)\.(\d+)\.0-rc(\d+)$`,
returning the three captured groups. -/
def rcParse (tagPfx name : String) : Option (Nat × Nat × Nat) :=
  (stripLit tagPfx.data name.data).bind parseRcSuffix

/-- Full GA/patch-pattern match `^{escaped-prefix}(\d+)\.(\d+)\.(\d+)$`,
returning the three captured groups. -/
def patchParse (tagPfx name : String) : Option (Nat × Nat × Nat) :=
  (stripLit tagPfx.data name.data).bind parsePatchSuffix

/-- Model of `src/tags.py`: `is_rc_tag(tag_name, tag_prefix)`. -/
def is_rc_tag (tag_name : String) (tagPfx : String) : Bool :=
  (rcParse tagPfx tag_name).isSome

/-- Model of `src/tags.py`: `is_ga_tag(tag_name, tag_prefix)` — patch pattern
matches and the third group is 0. -/
def is_ga_tag (tag_name : String) (tagPfx : String) : Bool :=
  match patchParse tagPfx tag_name with
  | some (_, _, p) => p = 0
  | none => false

/-- Model of `src/tags.py`: `is_patch_tag(tag_name, tag_prefix)` — patch pattern
matches and the third group is positive. -/
def is_patch_tag (tag_name : String) (tagPfx : String) : Bool :=
  match patchParse tagPfx tag_name with
  | some (_, _, p) => p > 0
  | none => false

/-- Model of `src/aliases.py`: `parse_release_tag(tag_name, tag_prefix)`. -/
def parse_release_tag (tag_name : String) (tagPfx : String) :
    Option (Nat × Nat × Nat) :=
  patchParse tagPfx tag_name

/-- One branch-version regex group `(0|[1-9][0-9]*)` followed by a
non-digit: reads a maximal digit run and rejects leading zeros.  Equivalent
to the alternation because any accepted match must be followed by a
non-digit (`\.` or `$`), so only the maximal run can match, and the
alternation accepts a maximal run iff it is `0` or starts with a non-zero
digit. -/
def readNoLeadZeroNum (s : List Char) : Option (Nat × List Char) :=
  let d := s.takeWhile Char.isDigit
  if d = [] then none
  else if d.head? = some '0' ∧ d.length ≠ 1 then none
  else some (digitsToNat d, s.dropWhile Char.isDigit)

/-- Matcher for the release-branch suffix `(0|[1-9][0-9]*)\.(0|[1-9][0-9]*)$`
used by `create_branch_pattern` in `src/branch.py`. -/
def parseBranchSuffix (s : List Char) : Option (Nat × Nat) :=
  (readNoLeadZeroNum s).bind fun p1 =>
    (expectChar '.' p1.2).bind fun r2 =>
      (readNoLeadZeroNum r2).bind fun p2 =>
        if p2.2 = [] then some (p1.1, p2.1) else none

/-- Model of `src/branch.py`: `BranchVersion` dataclass. -/
structure BranchVersion where
  major : Nat
  minor : Nat
deriving DecidableEq, Repr

/-- Model of `src/branch.py`: `parse_branch(branch_name, release_prefix)` — matches
`^{escaped-prefix}(0|[1-9][0-9]*)\.(0|[1-9][0-9]*)$` (empty names are
rejected up front, as in the source). -/
def parse_branch (branch_name : String) (relPfx : String) :
    Option BranchVersion :=
  if branch_name = "" then none
  else
    match stripLit relPfx.data branch_name.data with
    | none => none
    | some rest =>
      match parseBranchSuffix rest with
      | some (M, m) => some ⟨M, m⟩
      | none => none

/-- Model of `src/branch.py`: `should_skip_minor_alias(release_prefix, tag_prefix)` —
textual equality of the two prefixes. -/
def should_skip_minor_alias (relPfx : String) (tagPfx : String) : Bool :=
  relPfx = tagPfx

/-! ## The GitHub collaborator model -/

/-- Data model `TagRecord`: one tag as returned by the listing collaborator
(PyGithub `Tag` restricted to the two fields the engine reads:
`tag.name` and `tag.commit.sha`). -/
structure Tag where
  name : String
  sha : String
deriving DecidableEq, Repr

/-- The collaborator snapshot: the repository's full tag listing, plus the
branch-commit lookup.  `branchCommits b = none` models
`get_branch_commits` raising a `GithubException` (branch missing /
access failure); `some l` is the list of commit SHAs on branch `b`. -/
structure Api where
  tags : List Tag
  branchCommits : String → Option (List String)

/-- One call made to the collaborator (`src/github_api.py` surface). -/
inductive ApiCall where
  | listTags : ApiCall
  | tagExists (name : String) : ApiCall
  | createTag (name sha msg : String) : ApiCall
  | updateTag (name sha : String) : ApiCall
  | getBranchCommits (branch : String) : ApiCall
deriving DecidableEq, Repr

/-- Is a call a tag mutation (create or force-move)? -/
def ApiCall.isMutation : ApiCall → Bool
  | .createTag _ _ _ => true
  | .updateTag _ _ => true
  | _ => false

/-- Collaborator call `api.list_tags()`: returns the full listing and records the call. -/
def apiListTags (api : Api) : List Tag × List ApiCall :=
  (api.tags, [ApiCall.listTags])

/-- Collaborator call `api.tag_exists(name)`: a ref exists for `name` iff the listing
contains a tag of that name. -/
def apiTagExists (api : Api) (name : String) : Bool × List ApiCall :=
  (api.tags.any (fun t => t.name = name), [ApiCall.tagExists name])

/-! ## `src/tags.py` -/

/-- Python `highest is None or n > highest`. -/
def noneOrGt (highest : Option Nat) (n : Nat) : Bool :=
  match highest with
  | none => true
  | some h => n > h

/-- Loop body of `find_latest_rc`: keep the largest RC number seen for the
target `(major, minor)` series. -/
def findLatestRcStep (tagPfx : String) (major minor : Nat)
    (highest : Option Nat) (t : Tag) : Option Nat :=
  match rcParse tagPfx t.name with
  | some (tM, tm, rc) =>
    if tM = major ∧ tm = minor ∧ noneOrGt highest rc then some rc
    else highest
  | none => highest

/-- Model of `src/tags.py`: `find_latest_rc(api, major, minor, tag_prefix)`. -/
def find_latest_rc (api : Api) (major minor : Nat) (tagPfx : String) :
    Option Nat × List ApiCall :=
  let l := apiListTags api
  (l.1.foldl (findLatestRcStep tagPfx major minor) none, l.2)

/-- Loop body of `find_latest_patch`. -/
def findLatestPatchStep (tagPfx : String) (major minor : Nat)
    (highest : Option Nat) (t : Tag) : Option Nat :=
  match patchParse tagPfx t.name with
  | some (tM, tm, p) =>
    if tM = major ∧ tm = minor ∧ noneOrGt highest p then some p
    else highest
  | none => highest

/-- Model of `src/tags.py`: `find_latest_patch(api, major, minor, tag_prefix)`. -/
def find_latest_patch (api : Api) (major minor : Nat) (tagPfx : String) :
    Option Nat × List ApiCall :=
  let l := apiListTags api
  (l.1.foldl (findLatestPatchStep tagPfx major minor) none, l.2)

/-- The literal GA tag name `f"{tag_prefix}{major}.{minor}.0"`. -/
def mkGaTagName (tagPfx : String) (major minor : Nat) : String :=
  ⟨tagPfx.data ++ natToDigits major ++ '.' :: natToDigits minor ++ ['.', '0']⟩

/-- Model of `src/tags.py`: `ga_exists(api, major, minor, tag_prefix)`. -/
def ga_exists (api : Api) (major minor : Nat) (tagPfx : String) :
    Bool × List ApiCall :=
  apiTagExists api (mkGaTagName tagPfx major minor)

/-- Model of `src/tags.py`: `increment_rc(current_rc)`. -/
def increment_rc : Option Nat → Nat
  | none => 1
  | some n => n + 1

/-- Model of `src/tags.py`: `increment_patch(current_patch)`. -/
def increment_patch : Option Nat → Nat
  | none => 1
  | some n => n + 1

/-- The RC tag name `f"{tag_prefix}{major}.{minor}.0-rc{n}"`. -/
def mkRcTagName (tagPfx : String) (major minor n : Nat) : String :=
  ⟨tagPfx.data ++ natToDigits major ++ '.' :: natToDigits minor ++
    '.' :: '0' :: '-' :: 'r' :: 'c' :: natToDigits n⟩

/-- The patch tag name `f"{tag_prefix}{major}.{minor}.{n}"`. -/
def mkPatchTagName (tagPfx : String) (major minor n : Nat) : String :=
  ⟨tagPfx.data ++ natToDigits major ++ '.' :: natToDigits minor ++
    '.' :: natToDigits n⟩

/-- Model of `src/tags.py`: `get_next_rc_tag(api, major, minor, tag_prefix)`. -/
def get_next_rc_tag (api : Api) (major minor : Nat) (tagPfx : String) :
    String × List ApiCall :=
  let r := find_latest_rc api major minor tagPfx
  (mkRcTagName tagPfx major minor (increment_rc r.1), r.2)

/-- Model of `src/tags.py`: `get_next_patch_tag(api, major, minor, tag_prefix)`. -/
def get_next_patch_tag (api : Api) (major minor : Nat) (tagPfx : String) :
    String × List ApiCall :=
  let r := find_latest_patch api major minor tagPfx
  (mkPatchTagName tagPfx major minor (increment_patch r.1), r.2)

/-! ## `src/aliases.py` -/

/-- Python lexicographic `(a, b) > (c, d)` on pairs of ints. -/
def pairGt (x y : Nat × Nat) : Bool :=
  x.1 > y.1 ∨ (x.1 = y.1 ∧ x.2 > y.2)

/-- Python lexicographic `(a, b, c) >= (d, e, f)` on triples of ints. -/
def tripleGe (x y : Nat × Nat × Nat) : Bool :=
  x.1 > y.1 ∨ (x.1 = y.1 ∧ (x.2.1 > y.2.1 ∨
    (x.2.1 = y.2.1 ∧ x.2.2 ≥ y.2.2)))

/-- Loop body of `find_highest_major_version`: among GA/patch tags of the
given major, keep the one with the lexicographically largest
`(minor, patch)`. -/
def findHighestMajorStep (tagPfx : String) (major : Nat)
    (highest : Option (Nat × Nat × Nat)) (t : Tag) :
    Option (Nat × Nat × Nat) :=
  match parse_release_tag t.name tagPfx with
  | none => highest
  | some (tM, tm, tp) =>
    if tM ≠ major then highest
    else
      match highest with
      | none => some (tM, tm, tp)
      | some h => if pairGt (tm, tp) (h.2.1, h.2.2) then some (tM, tm, tp)
                  else some h

/-- Model of `src/aliases.py`: `find_highest_major_version(api, major, tag_prefix)`. -/
def find_highest_major_version (api : Api) (major : Nat) (tagPfx : String) :
    Option (Nat × Nat × Nat) × List ApiCall :=
  let l := apiListTags api
  (l.1.foldl (findHighestMajorStep tagPfx major) none, l.2)

/-- Loop body of `find_highest_minor_version`: among GA/patch tags of the
exact `(major, minor)` series, keep the one with the largest patch. -/
def findHighestMinorStep (tagPfx : String) (major minor : Nat)
    (highest : Option (Nat × Nat × Nat)) (t : Tag) :
    Option (Nat × Nat × Nat) :=
  match parse_release_tag t.name tagPfx with
  | none => highest
  | some (tM, tm, tp) =>
    if tM ≠ major ∨ tm ≠ minor then highest
    else
      match highest with
      | none => some (tM, tm, tp)
      | some h => if tp > h.2.2 then some (tM, tm, tp) else highest

/-- Model of `src/aliases.py`: `find_highest_minor_version(api, major, minor,
tag_prefix)`. -/
def find_highest_minor_version (api : Api) (major minor : Nat)
    (tagPfx : String) : Option (Nat × Nat × Nat) × List ApiCall :=
  let l := apiListTags api
  (l.1.foldl (findHighestMinorStep tagPfx major minor) none, l.2)

/-- The return dict of `update_alias_tags`:
`{"major": bool, "minor": bool}`. -/
structure AliasResult where
  major : Bool
  minor : Bool
deriving DecidableEq, Repr

/-- Model of `src/aliases.py`: `_update_or_create_alias(api, alias_name,
commit_sha)` — force-move the alias ref if it exists, create it
otherwise. -/
def updateOrCreateAlias (api : Api) (aliasName sha : String) :
    List ApiCall :=
  let ex := apiTagExists api aliasName
  if ex.1 then ex.2 ++ [ApiCall.updateTag aliasName sha]
  else ex.2 ++ [ApiCall.createTag aliasName sha ("Alias tag " ++ aliasName)]

/-- The minor alias tag name `f"{tag_prefix}{major}.{minor}"`. -/
def mkMinorAliasName (tagPfx : String) (major minor : Nat) : String :=
  ⟨tagPfx.data ++ natToDigits major ++ '.' :: natToDigits minor⟩

/-- The major alias tag name `f"{tag_prefix}{major}"`. -/
def mkMajorAliasName (tagPfx : String) (major : Nat) : String :=
  ⟨tagPfx.data ++ natToDigits major⟩

/-- Model of `src/aliases.py`: `update_alias_tags(api, tag_name, commit_sha,
tag_prefix, skip_minor_alias)`.  Note the guard on the minor and major
branches is `highest is not None and (major, minor, patch) >= highest`:
the alias is touched only when the corresponding series already has a
GA/patch tag in the listing. -/
def update_alias_tags (api : Api) (tag_name sha : String)
    (tagPfx : String) (skip_minor_alias : Bool) :
    AliasResult × List ApiCall :=
  if is_rc_tag tag_name tagPfx then (⟨false, false⟩, [])
  else
    match parse_release_tag tag_name tagPfx with
    | none => (⟨false, false⟩, [])
    | some (major, minor, patch) =>
      let minorPart : Bool × List ApiCall :=
        if ¬skip_minor_alias then
          let minorAlias := mkMinorAliasName tagPfx major minor
          let hm := find_highest_minor_version api major minor tagPfx
          match hm.1 with
          | some h =>
            if tripleGe (major, minor, patch) h then
              (true, hm.2 ++ updateOrCreateAlias api minorAlias sha)
            else (false, hm.2)
          | none => (false, hm.2)
        else (false, [])
      let majorAlias := mkMajorAliasName tagPfx major
      let hM := find_highest_major_version api major tagPfx
      let majorPart : Bool × List ApiCall :=
        match hM.1 with
        | some h =>
          if tripleGe (major, minor, patch) h then
            (true, hM.2 ++ updateOrCreateAlias api majorAlias sha)
          else (false, hM.2)
        | none => (false, hM.2)
      (⟨majorPart.1, minorPart.1⟩, minorPart.2 ++ majorPart.2)

/-- Model of `src/aliases.py`: `should_update_major_alias(api, major, minor, patch,
tag_prefix)` — note this one treats an empty major series (`None`) as
"should update", unlike the inline guard in `update_alias_tags`. -/
def should_update_major_alias (api : Api) (major minor patch : Nat)
    (tagPfx : String) : Bool × List ApiCall :=
  let h := find_highest_major_version api major tagPfx
  match h.1 with
  | none => (true, h.2)
  | some hv => (tripleGe (major, minor, patch) hv, h.2)

/-- Model of `src/aliases.py`: `should_update_minor_alias(api, major, minor, patch,
tag_prefix)`. -/
def should_update_minor_alias (api : Api) (major minor patch : Nat)
    (tagPfx : String) : Bool × List ApiCall :=
  let h := find_highest_minor_version api major minor tagPfx
  match h.1 with
  | none => (true, h.2)
  | some hv => (tripleGe (major, minor, patch) hv, h.2)

/-! ## `src/main.py` -/

/-- Model of `src/main.py`: `ActionInputs` dataclass (parsed configuration). -/
structure ActionInputs where
  token : String
  debug : Bool
  dry_run : Bool
  target_branch : String
  aliases : Bool := false
  release_pfx : String := "release/v"
  tag_pfx : String := "v"
deriving DecidableEq, Repr

/-- Model of `src/main.py`: `GitHubContext` dataclass (event environment). -/
structure GitHubContext where
  event_name : String
  ref_name : String
  ref_type : String
  sha : String
  repository : String
deriving DecidableEq, Repr

/-- Model of `src/main.py`: `ActionOutputs` dataclass with its defaults. -/
structure ActionOutputs where
  tag : String := ""
  tag_type : String := "skipped"
  major : String := ""
  minor : String := ""
deriving DecidableEq, Repr

/-- Model of `src/main.py`: `_commit_has_version_tag(api, commit_sha, tag_prefix)` —
return the name of the first listed tag whose commit is `commit_sha` and
whose name starts with the configured tag prefix. -/
def commit_has_version_tag (api : Api) (commit_sha : String)
    (tagPfx : String) : Option String × List ApiCall :=
  let l := apiListTags api
  ((l.1.find? fun t =>
      t.sha = commit_sha ∧ tagPfx.data.isPrefixOf t.name.data).map Tag.name,
   l.2)

/-- Python string truthiness: `if existing_tag:` is taken for a non-`None`,
non-empty string. -/
def strTruthy : Option String → Bool
  | none => false
  | some s => s ≠ ""

/-- Model of `src/main.py`: `handle_branch_create(api, context, inputs)` — on a
release-branch name, always emit `{tag_prefix}{major}.{minor}.0-rc1` at the
head commit (no guard against the tag already existing). -/
def handle_branch_create (api : Api) (context : GitHubContext)
    (inputs : ActionInputs) : ActionOutputs × List ApiCall :=
  match parse_branch context.ref_name inputs.release_pfx with
  | none => ({}, [])
  | some v =>
    let tagName := mkRcTagName inputs.tag_pfx v.major v.minor 1
    let outputs : ActionOutputs :=
      { tag := tagName, tag_type := "rc",
        major := natToStr v.major, minor := natToStr v.minor }
    if inputs.dry_run then (outputs, [])
    else
      (outputs,
       [ApiCall.createTag tagName context.sha
          ("Release candidate " ++ tagName)])

/-- Model of `src/main.py`: `_update_aliases_with_skip_logic(api, tag_name,
commit_sha, inputs)`. -/
def update_aliases_with_skip_logic (api : Api) (tag_name sha : String)
    (inputs : ActionInputs) : AliasResult × List ApiCall :=
  update_alias_tags api tag_name sha inputs.tag_pfx
    (should_skip_minor_alias inputs.release_pfx inputs.tag_pfx)

/-- Python `branch_name or context.ref_name`: the override wins unless it
is `None` or the empty string (string truthiness). -/
def resolveBranch (branch_name : Option String) (fallback : String) :
    String :=
  match branch_name with
  | some b => if b = "" then fallback else b
  | none => fallback

/-- Model of `src/main.py`: `handle_commit_push(api, context, inputs, branch_name)`.
`branch_name` is the optional override used by `handle_workflow_dispatch`;
Python `branch_name or context.ref_name` falls back on `None` or `""`. -/
def handle_commit_push (api : Api) (context : GitHubContext)
    (inputs : ActionInputs) (branch_name : Option String) :
    ActionOutputs × List ApiCall :=
  let branch := resolveBranch branch_name context.ref_name
  match parse_branch branch inputs.release_pfx with
  | none => ({}, [])
  | some v =>
    let base : ActionOutputs :=
      { major := natToStr v.major, minor := natToStr v.minor }
    let existing := commit_has_version_tag api context.sha inputs.tag_pfx
    if strTruthy existing.1 then
      ({ base with tag := existing.1.getD "", tag_type := "skipped" },
       existing.2)
    else
      let ga := ga_exists api v.major v.minor inputs.tag_pfx
      if ga.1 then
        let next := get_next_patch_tag api v.major v.minor inputs.tag_pfx
        let outputs := { base with tag := next.1, tag_type := "patch" }
        if inputs.dry_run then (outputs, existing.2 ++ ga.2 ++ next.2)
        else
          let creation := [ApiCall.createTag next.1 context.sha
            ("Patch release " ++ next.1)]
          if inputs.aliases then
            let al := update_aliases_with_skip_logic api next.1
              context.sha inputs
            (outputs, existing.2 ++ ga.2 ++ next.2 ++ creation ++ al.2)
          else (outputs, existing.2 ++ ga.2 ++ next.2 ++ creation)
      else
        let next := get_next_rc_tag api v.major v.minor inputs.tag_pfx
        let outputs := { base with tag := next.1, tag_type := "rc" }
        if inputs.dry_run then (outputs, existing.2 ++ ga.2 ++ next.2)
        else
          (outputs, existing.2 ++ ga.2 ++ next.2 ++
            [ApiCall.createTag next.1 context.sha
              ("Release candidate " ++ next.1)])

/-- Model of `src/main.py`: `_parse_tag_version(tag_name, tag_prefix)` — RC pattern
first, then GA/patch pattern, extracting only `(major, minor)`. -/
def parse_tag_version (tag_name : String) (tagPfx : String) :
    Option (Nat × Nat) :=
  match rcParse tagPfx tag_name with
  | some (M, m, _) => some (M, m)
  | none =>
    match patchParse tagPfx tag_name with
    | some (M, m, _) => some (M, m)
    | none => none

/-- Model of `src/main.py`: `_validate_tag_on_branch(api, commit_sha, branch_name)` —
a collaborator exception during the lookup (modelled by `none`) is treated
as "not reachable". -/
def validate_tag_on_branch (api : Api) (commit_sha branch_name : String) :
    Bool × List ApiCall :=
  match api.branchCommits branch_name with
  | some commits =>
    (commits.any (fun s => s = commit_sha),
     [ApiCall.getBranchCommits branch_name])
  | none => (false, [ApiCall.getBranchCommits branch_name])

/-- The release branch name `f"{release_prefix}{major}.{minor}"`. -/
def mkReleaseBranchName (relPfx : String) (major minor : Nat) : String :=
  ⟨relPfx.data ++ natToDigits major ++ '.' :: natToDigits minor⟩

/-- Model of `src/main.py`: `handle_tag_push(api, context, inputs)`.
`Except.error 1` models `sys.exit(1)` on the reachability failure. -/
def handle_tag_push (api : Api) (context : GitHubContext)
    (inputs : ActionInputs) : Except Nat ActionOutputs × List ApiCall :=
  let tagName := context.ref_name
  match parse_tag_version tagName inputs.tag_pfx with
  | none => (Except.ok {}, [])
  | some (major, minor) =>
    let base : ActionOutputs :=
      { tag := tagName, major := natToStr major, minor := natToStr minor }
    let releaseBranch := mkReleaseBranchName inputs.release_pfx major minor
    let valid := validate_tag_on_branch api context.sha releaseBranch
    if ¬valid.1 then (Except.error 1, valid.2)
    else
      if is_rc_tag tagName inputs.tag_pfx then
        (Except.ok { base with tag_type := "rc" }, valid.2)
      else if is_ga_tag tagName inputs.tag_pfx then
        if ¬inputs.dry_run ∧ inputs.aliases then
          let al := update_aliases_with_skip_logic api tagName
            context.sha inputs
          (Except.ok { base with tag_type := "ga" }, valid.2 ++ al.2)
        else (Except.ok { base with tag_type := "ga" }, valid.2)
      else
        if ¬inputs.dry_run ∧ inputs.aliases then
          let al := update_aliases_with_skip_logic api tagName
            context.sha inputs
          (Except.ok { base with tag_type := "patch" }, valid.2 ++ al.2)
        else (Except.ok { base with tag_type := "patch" }, valid.2)

/-- Model of `src/main.py`: `handle_workflow_dispatch(api, context, inputs)` —
resolve the target branch (Python `inputs.target_branch or
context.ref_name`), require it to parse, then delegate to
`handle_commit_push`. -/
def handle_workflow_dispatch (api : Api) (context : GitHubContext)
    (inputs : ActionInputs) : Except Nat ActionOutputs × List ApiCall :=
  let target :=
    if inputs.target_branch = "" then context.ref_name
    else inputs.target_branch
  match parse_branch target inputs.release_pfx with
  | none => (Except.error 1, [])
  | some _ =>
    let r := handle_commit_push api context inputs (some target)
    (Except.ok r.1, r.2)

/-! ## Auxiliary definitions used by the verification layer -/

/-- Fold step computing the maximum of a list of numbers as an
`Option Nat`. -/
def maxO (acc : Option Nat) (n : Nat) : Option Nat :=
  match acc with
  | none => some n
  | some a => some (max a n)

/-- The RC numbers of the `(major, minor)` series present in a listing,
in listing order (the numbers the RC classifier extracts). -/
def seriesRcNums (tags : List Tag) (major minor : Nat) (pfx : String) :
    List Nat :=
  tags.filterMap fun t =>
    match rcParse pfx t.name with
    | some (a, b, n) => if a = major ∧ b = minor then some n else none
    | none => none

/-- Simulation of N sequential commit-pushes with no GA: each step computes
the next RC tag from the current listing and the external side effect adds
exactly that tag (at some commit) before the next push. -/
def rcRun (pfx : String) (major minor : Nat) (sha : String) :
    Api → Nat → List String
  | _, 0 => []
  | api, Nat.succ k =>
    let t := (get_next_rc_tag api major minor pfx).1
    t :: rcRun pfx major minor sha
      ⟨api.tags ++ [⟨t, sha⟩], api.branchCommits⟩ k

/-- The collaborator's state transition for a force-move of tag `nm` to
commit `s` (`forceMoveTag` semantics: the ref keeps its name, its commit
changes). -/
def updTagFn (nm s : String) (t : Tag) : Tag :=
  if t.name = nm then ⟨nm, s⟩ else t

/-- The collaborator's state transition for one requested call: `createTag`
adds the tag to the listing, `updateTag` force-moves it, reads change
nothing. -/
def applyCall (tags : List Tag) : ApiCall → List Tag
  | .createTag n s _ => tags ++ [⟨n, s⟩]
  | .updateTag n s => tags.map (updTagFn n s)
  | _ => tags

/-- Replay a whole requested-call trace against the collaborator,
producing the listing the next invocation would observe. -/
def applyCalls (api : Api) (calls : List ApiCall) : Api :=
  ⟨calls.foldl applyCall api.tags, api.branchCommits⟩

/-- The tag mutations requested in a trace, as `(tag name, commit)`
targets (a create and a force-move of the same tag to the same commit are
the same mutation target). -/
def mutTargets (calls : List ApiCall) : List (String × String) :=
  calls.filterMap fun c =>
    match c with
    | .createTag n s _ => some (n, s)
    | .updateTag n s => some (n, s)
    | _ => none

/-! ## Basic lemmas: digits and digit runs -/

theorem digitChar_isDigit {d : Nat} (h : d < 10) :
    (digitChar d).isDigit = true := by
  interval_cases d <;> decide

theorem digitVal_digitChar {d : Nat} (h : d < 10) :
    digitVal (digitChar d) = d := by
  interval_cases d <;> decide

theorem digitsToNat_append_singleton (l : List Char) (c : Char) :
    digitsToNat (l ++ [c]) = digitsToNat l * 10 + digitVal c := by
  simp [digitsToNat, List.foldl_append]

theorem natToDigitsAux_spec :
    ∀ fuel n, n < fuel →
      digitsToNat (natToDigitsAux fuel n) = n ∧
      natToDigitsAux fuel n ≠ [] ∧
      ∀ c ∈ natToDigitsAux fuel n, c.isDigit = true := by
  intro fuel
  induction fuel with
  | zero => intro n h; omega
  | succ f ih =>
    intro n _
    by_cases h10 : n < 10
    · refine ⟨?_, by simp [natToDigitsAux, h10], ?_⟩
      · simp [natToDigitsAux, h10, digitsToNat, digitVal_digitChar h10]
      · simp [natToDigitsAux, h10, digitChar_isDigit h10]
    · have hdiv : n / 10 < f := by
        have h1 : n / 10 < n := Nat.div_lt_self (by omega) (by omega)
        omega
      obtain ⟨ih1, _, ih3⟩ := ih (n / 10) hdiv
      have hmod : n % 10 < 10 := Nat.mod_lt _ (by omega)
      refine ⟨?_, by simp [natToDigitsAux, h10], ?_⟩
      · rw [natToDigitsAux]
        simp only [h10, if_false]
        rw [digitsToNat_append_singleton, ih1, digitVal_digitChar hmod]
        omega
      · rw [natToDigitsAux]
        simp only [h10, if_false]
        intro c hc
        rcases List.mem_append.mp hc with hc | hc
        · exact ih3 c hc
        · simp at hc
          rw [hc]
          exact digitChar_isDigit hmod

theorem digitsToNat_natToDigits (n : Nat) :
    digitsToNat (natToDigits n) = n :=
  (natToDigitsAux_spec (n + 1) n (by omega)).1

theorem natToDigits_ne_nil (n : Nat) : natToDigits n ≠ [] :=
  (natToDigitsAux_spec (n + 1) n (by omega)).2.1

theorem natToDigits_all_digit (n : Nat) :
    ∀ c ∈ natToDigits n, c.isDigit = true :=
  (natToDigitsAux_spec (n + 1) n (by omega)).2.2

theorem takeWhile_all {p : Char → Bool} {l : List Char}
    (h : ∀ c ∈ l, p c = true) : l.takeWhile p = l := by
  induction l with
  | nil => rfl
  | cons a l ih =>
    rw [List.takeWhile_cons, h a (by simp)]
    simp [ih fun c hc => h c (by simp [hc])]

theorem dropWhile_all {p : Char → Bool} {l : List Char}
    (h : ∀ c ∈ l, p c = true) : l.dropWhile p = [] := by
  induction l with
  | nil => rfl
  | cons a l ih =>
    rw [List.dropWhile_cons, h a (by simp)]
    simp [ih fun c hc => h c (by simp [hc])]

theorem takeWhile_append_not {p : Char → Bool} {d : List Char} {x : Char}
    (r : List Char) (hd : ∀ c ∈ d, p c = true) (hx : p x = false) :
    (d ++ x :: r).takeWhile p = d := by
  induction d with
  | nil => simp [List.takeWhile_cons, hx]
  | cons a d ih =>
    rw [List.cons_append, List.takeWhile_cons, hd a (by simp)]
    simp [ih fun c hc => hd c (by simp [hc])]

theorem dropWhile_append_not {p : Char → Bool} {d : List Char} {x : Char}
    (r : List Char) (hd : ∀ c ∈ d, p c = true) (hx : p x = false) :
    (d ++ x :: r).dropWhile p = x :: r := by
  induction d with
  | nil => simp [List.dropWhile_cons, hx]
  | cons a d ih =>
    rw [List.cons_append, List.dropWhile_cons, hd a (by simp)]
    simp [ih fun c hc => hd c (by simp [hc])]

theorem stripLit_append (p r : List Char) : stripLit p (p ++ r) = some r := by
  induction p with
  | nil => rfl
  | cons a p ih => simp [stripLit, ih]

/-! ## readNum lemmas -/

theorem readNum_append_not {d : List Char} {x : Char} (r : List Char)
    (hne : d ≠ []) (hd : ∀ c ∈ d, c.isDigit = true)
    (hx : x.isDigit = false) :
    readNum (d ++ x :: r) = some (digitsToNat d, x :: r) := by
  rw [readNum]
  simp only [takeWhile_append_not r hd hx, dropWhile_append_not r hd hx]
  simp [hne]

theorem readNum_all {d : List Char} (hne : d ≠ [])
    (hd : ∀ c ∈ d, c.isDigit = true) :
    readNum d = some (digitsToNat d, []) := by
  rw [readNum]
  simp only [takeWhile_all hd, dropWhile_all hd]
  simp [hne]

/-- Inversion for `readNum`: a successful read decomposes the input into a
non-empty all-digit run followed by the rest, whose head (if any) is not a
digit. -/
theorem readNum_inv {s : List Char} {n : Nat} {r : List Char}
    (h : readNum s = some (n, r)) :
    ∃ d, d ≠ [] ∧ (∀ c ∈ d, c.isDigit = true) ∧ s = d ++ r ∧
      n = digitsToNat d := by
  rw [readNum] at h
  by_cases hd : s.takeWhile Char.isDigit = []
  · simp [hd] at h
  · simp only [hd, if_false, Option.some.injEq, Prod.mk.injEq] at h
    refine ⟨s.takeWhile Char.isDigit, hd, ?_, ?_, h.1.symm⟩
    · intro c hc
      exact List.mem_takeWhile_imp hc
    · rw [← h.2, List.takeWhile_append_dropWhile]

/-- Inversion for `expectChar`. -/
theorem expectChar_inv {c : Char} {s r : List Char}
    (h : expectChar c s = some r) : s = c :: r := by
  match s with
  | [] => exact absurd h (by simp [expectChar])
  | x :: t =>
    rw [expectChar] at h
    by_cases hx : x = c
    · subst hx
      simp at h
      rw [h]
    · simp [hx] at h

/-- Inversion for `stripLit`. -/
theorem stripLit_inv :
    ∀ (p s r : List Char), stripLit p s = some r → s = p ++ r := by
  intro p
  induction p with
  | nil =>
    intro s r h
    simp only [stripLit, Option.some.injEq] at h
    rw [h, List.nil_append]
  | cons a p ih =>
    intro s r h
    match s with
    | [] => exact absurd h (by simp [stripLit])
    | c :: t =>
      rw [stripLit] at h
      by_cases hc : c = a
      · rw [List.cons_append, ← hc]
        simp only [hc, if_pos rfl] at h
        rw [ih t r h]
      · simp [hc] at h

/-! ## Round trips for constructed tag names -/

theorem parsePatchSuffix_components {d1 d2 d3 : List Char}
    (h1 : d1 ≠ []) (h1d : ∀ c ∈ d1, c.isDigit = true)
    (h2 : d2 ≠ []) (h2d : ∀ c ∈ d2, c.isDigit = true)
    (h3 : d3 ≠ []) (h3d : ∀ c ∈ d3, c.isDigit = true) :
    parsePatchSuffix (d1 ++ '.' :: (d2 ++ '.' :: d3)) =
      some (digitsToNat d1, digitsToNat d2, digitsToNat d3) := by
  rw [parsePatchSuffix]
  rw [readNum_append_not (d2 ++ '.' :: d3) h1 h1d (by decide)]
  rw [Option.some_bind]
  simp only [expectChar, if_true, ite_true, eq_self_iff_true,
    Option.some_bind]
  rw [readNum_append_not d3 h2 h2d (by decide)]
  rw [Option.some_bind]
  simp only [expectChar, if_true, ite_true, eq_self_iff_true,
    Option.some_bind]
  rw [readNum_all h3 h3d]
  simp

theorem parseRcSuffix_components {d1 d2 d3 : List Char}
    (h1 : d1 ≠ []) (h1d : ∀ c ∈ d1, c.isDigit = true)
    (h2 : d2 ≠ []) (h2d : ∀ c ∈ d2, c.isDigit = true)
    (h3 : d3 ≠ []) (h3d : ∀ c ∈ d3, c.isDigit = true) :
    parseRcSuffix (d1 ++ '.' :: (d2 ++ '.' :: '0' :: '-' :: 'r' :: 'c' :: d3)) =
      some (digitsToNat d1, digitsToNat d2, digitsToNat d3) := by
  rw [parseRcSuffix]
  rw [readNum_append_not (d2 ++ '.' :: '0' :: '-' :: 'r' :: 'c' :: d3) h1 h1d
    (by decide)]
  rw [Option.some_bind]
  simp only [expectChar, if_true, ite_true, eq_self_iff_true,
    Option.some_bind]
  rw [readNum_append_not ('0' :: '-' :: 'r' :: 'c' :: d3) h2 h2d (by decide)]
  rw [Option.some_bind]
  simp only [stripLit, if_true, ite_true, eq_self_iff_true,
    Option.some_bind]
  rw [readNum_all h3 h3d]
  simp

theorem rcParse_mkRcTagName (pfx : String) (M m n : Nat) :
    rcParse pfx (mkRcTagName pfx M m n) = some (M, m, n) := by
  rw [rcParse, mkRcTagName]
  rw [show (String.mk (pfx.data ++ natToDigits M ++ '.' :: natToDigits m ++
      '.' :: '0' :: '-' :: 'r' :: 'c' :: natToDigits n)).data =
    pfx.data ++ (natToDigits M ++ '.' :: (natToDigits m ++
      '.' :: '0' :: '-' :: 'r' :: 'c' :: natToDigits n)) by simp]
  rw [stripLit_append, Option.some_bind]
  rw [parseRcSuffix_components (natToDigits_ne_nil M) (natToDigits_all_digit M)
    (natToDigits_ne_nil m) (natToDigits_all_digit m)
    (natToDigits_ne_nil n) (natToDigits_all_digit n)]
  simp [digitsToNat_natToDigits]

theorem patchParse_mkPatchTagName (pfx : String) (M m n : Nat) :
    patchParse pfx (mkPatchTagName pfx M m n) = some (M, m, n) := by
  rw [patchParse, mkPatchTagName]
  rw [show (String.mk (pfx.data ++ natToDigits M ++ '.' :: natToDigits m ++
      '.' :: natToDigits n)).data =
    pfx.data ++ (natToDigits M ++ '.' :: (natToDigits m ++
      '.' :: natToDigits n)) by simp]
  rw [stripLit_append, Option.some_bind]
  rw [parsePatchSuffix_components (natToDigits_ne_nil M)
    (natToDigits_all_digit M) (natToDigits_ne_nil m)
    (natToDigits_all_digit m) (natToDigits_ne_nil n)
    (natToDigits_all_digit n)]
  simp [digitsToNat_natToDigits]

/-! ## An RC-shaped name never matches the GA/patch pattern -/

theorem parseRcSuffix_parsePatchSuffix_none {s : List Char}
    {v : Nat × Nat × Nat} (h : parseRcSuffix s = some v) :
    parsePatchSuffix s = none := by
  rw [parseRcSuffix] at h
  rw [Option.bind_eq_some] at h
  obtain ⟨p1, hp1, h⟩ := h
  rw [Option.bind_eq_some] at h
  obtain ⟨r2, hr2, h⟩ := h
  rw [Option.bind_eq_some] at h
  obtain ⟨p2, hp2, h⟩ := h
  rw [Option.bind_eq_some] at h
  obtain ⟨r4, hr4, _⟩ := h
  have hshape : p2.2 = '.' :: '0' :: '-' :: 'r' :: 'c' :: r4 :=
    stripLit_inv _ _ _ hr4
  rw [parsePatchSuffix, hp1, Option.some_bind, hr2, Option.some_bind,
    hp2, Option.some_bind, hshape]
  simp only [expectChar, if_true, ite_true, eq_self_iff_true,
    Option.some_bind]
  have hread : readNum ('0' :: '-' :: 'r' :: 'c' :: r4) =
      some (digitsToNat ['0'], '-' :: 'r' :: 'c' :: r4) := by
    have h0 : ('0' : Char).isDigit = true := by decide
    have hm : ('-' : Char).isDigit = false := by decide
    rw [readNum]
    simp [List.takeWhile_cons, List.dropWhile_cons, h0, hm]
  rw [hread, Option.some_bind]
  simp

theorem rcParse_patchParse_none {name pfx : String} {v : Nat × Nat × Nat}
    (h : rcParse pfx name = some v) : patchParse pfx name = none := by
  rw [rcParse, Option.bind_eq_some] at h
  obtain ⟨rest, hstrip, hsuffix⟩ := h
  rw [patchParse, hstrip, Option.some_bind]
  exact parseRcSuffix_parsePatchSuffix_none hsuffix

/-- A tag that classifies as RC is never parsed as a GA/patch release. -/
theorem is_rc_tag_parse_release_none {name pfx : String}
    (h : is_rc_tag name pfx = true) : parse_release_tag name pfx = none := by
  rw [is_rc_tag, Option.isSome_iff_exists] at h
  obtain ⟨v, hv⟩ := h
  rw [parse_release_tag]
  exact rcParse_patchParse_none hv

/-- A tag that parses as a GA/patch release never classifies as RC. -/
theorem parse_release_some_not_rc {name pfx : String} {v : Nat × Nat × Nat}
    (h : parse_release_tag name pfx = some v) :
    is_rc_tag name pfx = false := by
  by_cases hrc : is_rc_tag name pfx = true
  · rw [is_rc_tag_parse_release_none hrc] at h
    exact absurd h (by simp)
  · simp at hrc
    exact hrc

/-! ## Characterizing `find_latest_rc` as a maximum -/

theorem findLatestRcStep_eq_maxO (pfx : String) (major minor : Nat)
    (acc : Option Nat) (t : Tag) :
    findLatestRcStep pfx major minor acc t =
      match (match rcParse pfx t.name with
             | some (a, b, n) =>
               if a = major ∧ b = minor then some n else none
             | none => none) with
      | some n => maxO acc n
      | none => acc := by
  rw [findLatestRcStep]
  cases hp : rcParse pfx t.name with
  | none => simp
  | some v =>
    obtain ⟨a, b, n⟩ := v
    dsimp only
    by_cases hab : a = major ∧ b = minor
    · obtain ⟨ha, hb⟩ := hab
      subst ha
      subst hb
      cases acc with
      | none => simp [noneOrGt, maxO]
      | some h =>
        by_cases hgt : n > h
        · rw [if_pos ⟨rfl, rfl, by simp [noneOrGt, hgt]⟩]
          simp [maxO, Nat.max_eq_right (Nat.le_of_lt hgt)]
        · rw [if_neg (by simp [noneOrGt, hgt, Nat.le_of_not_lt])]
          simp [maxO, Nat.max_eq_left (Nat.le_of_not_lt hgt)]
    · simp only [if_neg hab]
      rw [if_neg
        (fun hh : a = major ∧ b = minor ∧ noneOrGt acc n = true =>
          hab ⟨hh.1, hh.2.1⟩)]

theorem foldl_findLatestRcStep_eq (pfx : String) (major minor : Nat) :
    ∀ (l : List Tag) (acc : Option Nat),
      l.foldl (findLatestRcStep pfx major minor) acc =
        (seriesRcNums l major minor pfx).foldl maxO acc := by
  intro l
  induction l with
  | nil => intro acc; rfl
  | cons t l ih =>
    intro acc
    rw [List.foldl_cons, seriesRcNums, List.filterMap_cons]
    rw [findLatestRcStep_eq_maxO]
    cases hp : (match rcParse pfx t.name with
                | some (a, b, n) =>
                  if a = major ∧ b = minor then some n else none
                | none => none) with
    | none => rw [ih acc]; rfl
    | some n => rw [ih (maxO acc n)]; rfl

/-- The function `find_latest_rc` returns exactly the maximum of the series' RC
numbers. -/
theorem find_latest_rc_eq_max (api : Api) (major minor : Nat)
    (pfx : String) :
    (find_latest_rc api major minor pfx).1 =
      (seriesRcNums api.tags major minor pfx).foldl maxO none := by
  rw [find_latest_rc]
  exact foldl_findLatestRcStep_eq pfx major minor api.tags none

theorem foldl_maxO_none_eq_none {l : List Nat}
    (h : l.foldl maxO none = none) : l = [] := by
  cases l with
  | nil => rfl
  | cons n l =>
    exfalso
    rw [List.foldl_cons] at h
    have : ∀ (acc : Nat) (l' : List Nat), l'.foldl maxO (some acc) ≠ none := by
      intro acc l'
      induction l' generalizing acc with
      | nil => simp
      | cons m l' ih => rw [List.foldl_cons]; exact ih (max acc m)
    exact this n l h

theorem foldl_maxO_spec :
    ∀ (l : List Nat) (a k : Nat),
      l.foldl maxO (some a) = some k →
      (k = a ∨ k ∈ l) ∧ a ≤ k ∧ ∀ x ∈ l, x ≤ k := by
  intro l
  induction l with
  | nil =>
    intro a k h
    simp only [List.foldl_nil, Option.some.injEq] at h
    exact ⟨Or.inl h.symm, by omega, by simp⟩
  | cons n l ih =>
    intro a k h
    rw [List.foldl_cons] at h
    obtain ⟨hmem, hle, hall⟩ := ih (max a n) k h
    refine ⟨?_, by omega, ?_⟩
    · rcases hmem with hk | hk
      · rcases Nat.le_total a n with hc | hc
        · rw [Nat.max_eq_right hc] at hk
          exact Or.inr (by simp [hk])
        · rw [Nat.max_eq_left hc] at hk
          exact Or.inl hk
      · exact Or.inr (by simp [hk])
    · intro x hx
      rcases List.mem_cons.mp hx with hx | hx
      · omega
      · exact hall x hx

theorem foldl_maxO_none_spec {l : List Nat} {k : Nat}
    (h : l.foldl maxO none = some k) : k ∈ l ∧ ∀ x ∈ l, x ≤ k := by
  cases l with
  | nil => simp at h
  | cons n l =>
    rw [List.foldl_cons] at h
    obtain ⟨hmem, hle, hall⟩ := foldl_maxO_spec l n k h
    refine ⟨?_, ?_⟩
    · rcases hmem with hk | hk
      · simp [hk]
      · simp [hk]
    · intro x hx
      rcases List.mem_cons.mp hx with hx | hx
      · omega
      · exact hall x hx

/-! ## RC sequencing simulation -/

theorem seriesRcNums_append (tags more : List Tag) (major minor : Nat)
    (pfx : String) :
    seriesRcNums (tags ++ more) major minor pfx =
      seriesRcNums tags major minor pfx ++
        seriesRcNums more major minor pfx := by
  rw [seriesRcNums, seriesRcNums, seriesRcNums, List.filterMap_append]

theorem seriesRcNums_mkRcTag (major minor n : Nat) (pfx sha : String) :
    seriesRcNums [⟨mkRcTagName pfx major minor n, sha⟩] major minor pfx =
      [n] := by
  rw [seriesRcNums, List.filterMap_cons]
  simp [rcParse_mkRcTagName]

theorem foldl_maxO_append_singleton (l : List Nat) (acc : Option Nat)
    (x : Nat) : (l ++ [x]).foldl maxO acc = maxO (l.foldl maxO acc) x := by
  rw [List.foldl_append, List.foldl_cons, List.foldl_nil]

/-- Invariant-based form of the RC sequencing property: if the current
maximum RC number of the series is `k` (with `k = 0` standing for "no RC
tags yet"), the next `N` pushes compute exactly `rc(k+1), ..., rc(k+N)`. -/
theorem rcRun_spec (pfx : String) (major minor : Nat) (sha : String) :
    ∀ (N : Nat) (api : Api) (k : Nat),
      ((seriesRcNums api.tags major minor pfx).foldl maxO none = none ∧
        k = 0) ∨
      (seriesRcNums api.tags major minor pfx).foldl maxO none = some k →
      rcRun pfx major minor sha api N =
        (List.range N).map fun i => mkRcTagName pfx major minor (k + 1 + i) := by
  intro N
  induction N with
  | zero => intro api k _; simp [rcRun]
  | succ N ih =>
    intro api k hk
    have hnext : (get_next_rc_tag api major minor pfx).1 =
        mkRcTagName pfx major minor (k + 1) := by
      rw [get_next_rc_tag]
      simp only
      rw [find_latest_rc_eq_max]
      rcases hk with ⟨hnone, hk0⟩ | hsome
      · rw [hnone, hk0]
        rfl
      · rw [hsome]
        rfl
    rw [rcRun]
    simp only [hnext]
    have happend : (seriesRcNums (api.tags ++
        [⟨mkRcTagName pfx major minor (k + 1), sha⟩]) major minor pfx).foldl
          maxO none = some (k + 1) := by
      rw [seriesRcNums_append, seriesRcNums_mkRcTag,
        foldl_maxO_append_singleton]
      rcases hk with ⟨hnone, _⟩ | hsome
      · rw [hnone]; rfl
      · rw [hsome]
        simp only [maxO]
        rw [Nat.max_eq_right (by omega)]
    have hrec := ih ⟨api.tags ++ [⟨mkRcTagName pfx major minor (k + 1), sha⟩],
      api.branchCommits⟩ (k + 1) (Or.inr happend)
    rw [hrec]
    rw [List.range_succ_eq_map, List.map_cons, List.map_map]
    congr 1
    apply List.map_congr_left
    intro i _
    simp only [Function.comp]
    congr 1
    omega

/-! ## Alias-layer lemmas -/

theorem tripleGe_refl (x : Nat × Nat × Nat) : tripleGe x x = true := by
  obtain ⟨a, b, c⟩ := x
  simp [tripleGe]

/-- The `find_highest_major_version` fold step depends only on the tag's
name. -/
theorem findHighestMajorStep_name (pfx : String) (M : Nat)
    (acc : Option (Nat × Nat × Nat)) {t t' : Tag} (h : t.name = t'.name) :
    findHighestMajorStep pfx M acc t = findHighestMajorStep pfx M acc t' := by
  rw [findHighestMajorStep, findHighestMajorStep, h]

theorem findHighestMinorStep_name (pfx : String) (M m : Nat)
    (acc : Option (Nat × Nat × Nat)) {t t' : Tag} (h : t.name = t'.name) :
    findHighestMinorStep pfx M m acc t =
      findHighestMinorStep pfx M m acc t' := by
  rw [findHighestMinorStep, findHighestMinorStep, h]

theorem findHighestMajorStep_nonparse (pfx : String) (M : Nat)
    (acc : Option (Nat × Nat × Nat)) {t : Tag}
    (h : parse_release_tag t.name pfx = none) :
    findHighestMajorStep pfx M acc t = acc := by
  rw [findHighestMajorStep, h]

theorem findHighestMinorStep_nonparse (pfx : String) (M m : Nat)
    (acc : Option (Nat × Nat × Nat)) {t : Tag}
    (h : parse_release_tag t.name pfx = none) :
    findHighestMinorStep pfx M m acc t = acc := by
  rw [findHighestMinorStep, h]

/-- The map `updTagFn` preserves tag names (a force-move keeps the ref name). -/
theorem updTagFn_name (nm s : String) (t : Tag) :
    (updTagFn nm s t).name = t.name := by
  rw [updTagFn]
  by_cases h : t.name = nm
  · rw [if_pos h, h]
  · rw [if_neg h]

theorem foldl_fhMajor_map_upd (pfx : String) (M : Nat) (nm s : String) :
    ∀ (l : List Tag) (acc : Option (Nat × Nat × Nat)),
      (l.map (updTagFn nm s)).foldl (findHighestMajorStep pfx M) acc =
        l.foldl (findHighestMajorStep pfx M) acc := by
  intro l
  induction l with
  | nil => intro acc; rfl
  | cons t l ih =>
    intro acc
    rw [List.map_cons, List.foldl_cons, List.foldl_cons,
      findHighestMajorStep_name pfx M acc (updTagFn_name nm s t), ih]

theorem foldl_fhMinor_map_upd (pfx : String) (M m : Nat) (nm s : String) :
    ∀ (l : List Tag) (acc : Option (Nat × Nat × Nat)),
      (l.map (updTagFn nm s)).foldl (findHighestMinorStep pfx M m) acc =
        l.foldl (findHighestMinorStep pfx M m) acc := by
  intro l
  induction l with
  | nil => intro acc; rfl
  | cons t l ih =>
    intro acc
    rw [List.map_cons, List.foldl_cons, List.foldl_cons,
      findHighestMinorStep_name pfx M m acc (updTagFn_name nm s t), ih]

theorem foldl_fhMajor_nonparse_id (pfx : String) (M : Nat) :
    ∀ (extra : List Tag),
      (∀ t ∈ extra, parse_release_tag t.name pfx = none) →
      ∀ b, extra.foldl (findHighestMajorStep pfx M) b = b := by
  intro extra
  induction extra with
  | nil => intro _ b; rfl
  | cons t e ih =>
    intro hx b
    rw [List.foldl_cons, findHighestMajorStep_nonparse pfx M b
      (hx t (by simp))]
    exact ih (fun t' ht' => hx t' (by simp [ht'])) b

theorem foldl_fhMinor_nonparse_id (pfx : String) (M m : Nat) :
    ∀ (extra : List Tag),
      (∀ t ∈ extra, parse_release_tag t.name pfx = none) →
      ∀ b, extra.foldl (findHighestMinorStep pfx M m) b = b := by
  intro extra
  induction extra with
  | nil => intro _ b; rfl
  | cons t e ih =>
    intro hx b
    rw [List.foldl_cons, findHighestMinorStep_nonparse pfx M m b
      (hx t (by simp))]
    exact ih (fun t' ht' => hx t' (by simp [ht'])) b

theorem foldl_fhMajor_append_nonparse (pfx : String) (M : Nat)
    {extra : List Tag}
    (hx : ∀ t ∈ extra, parse_release_tag t.name pfx = none) :
    ∀ (l : List Tag) (acc : Option (Nat × Nat × Nat)),
      (l ++ extra).foldl (findHighestMajorStep pfx M) acc =
        l.foldl (findHighestMajorStep pfx M) acc := by
  intro l acc
  rw [List.foldl_append]
  exact foldl_fhMajor_nonparse_id pfx M extra hx _

theorem foldl_fhMinor_append_nonparse (pfx : String) (M m : Nat)
    {extra : List Tag}
    (hx : ∀ t ∈ extra, parse_release_tag t.name pfx = none) :
    ∀ (l : List Tag) (acc : Option (Nat × Nat × Nat)),
      (l ++ extra).foldl (findHighestMinorStep pfx M m) acc =
        l.foldl (findHighestMinorStep pfx M m) acc := by
  intro l acc
  rw [List.foldl_append]
  exact foldl_fhMinor_nonparse_id pfx M m extra hx _

/-- The major alias name `{pfx}{M}` never parses as a release tag under
the same prefix (only one numeric component follows the prefix). -/
theorem parse_release_majorAlias (pfx : String) (M : Nat) :
    parse_release_tag (mkMajorAliasName pfx M) pfx = none := by
  rw [parse_release_tag, patchParse, mkMajorAliasName]
  rw [show (String.mk (pfx.data ++ natToDigits M)).data =
    pfx.data ++ natToDigits M by simp]
  rw [stripLit_append, Option.some_bind, parsePatchSuffix]
  rw [readNum_all (natToDigits_ne_nil M) (natToDigits_all_digit M),
    Option.some_bind]
  simp [expectChar]

/-- The minor alias name `{pfx}{M}.{m}` never parses as a release tag under
the same prefix (only two numeric components follow the prefix). -/
theorem parse_release_minorAlias (pfx : String) (M m : Nat) :
    parse_release_tag (mkMinorAliasName pfx M m) pfx = none := by
  rw [parse_release_tag, patchParse, mkMinorAliasName]
  rw [show (String.mk (pfx.data ++ natToDigits M ++
      '.' :: natToDigits m)).data =
    pfx.data ++ (natToDigits M ++ '.' :: natToDigits m) by simp]
  rw [stripLit_append, Option.some_bind, parsePatchSuffix]
  rw [readNum_append_not (natToDigits m) (natToDigits_ne_nil M)
    (natToDigits_all_digit M) (by decide), Option.some_bind]
  simp only [expectChar, if_true, ite_true, eq_self_iff_true,
    Option.some_bind]
  rw [readNum_all (natToDigits_ne_nil m) (natToDigits_all_digit m),
    Option.some_bind]
  simp [expectChar]

theorem any_name_map_upd (nm s a : String) :
    ∀ l : List Tag,
      (l.map (updTagFn nm s)).any (fun t => t.name = a) =
        l.any (fun t => t.name = a) := by
  intro l
  induction l with
  | nil => rfl
  | cons t l ih =>
    rw [List.map_cons, List.any_cons, List.any_cons, ih, updTagFn_name]

theorem foldl_fhMajor_filter_rc (pfx : String) (M : Nat) :
    ∀ (l : List Tag) (acc : Option (Nat × Nat × Nat)),
      (l.filter (fun t => !is_rc_tag t.name pfx)).foldl
          (findHighestMajorStep pfx M) acc =
        l.foldl (findHighestMajorStep pfx M) acc := by
  intro l
  induction l with
  | nil => intro acc; rfl
  | cons t l ih =>
    intro acc
    rw [List.filter_cons]
    cases hrc : is_rc_tag t.name pfx with
    | true =>
      simp only [hrc, Bool.not_true, if_false, List.foldl_cons]
      rw [findHighestMajorStep_nonparse pfx M acc
        (is_rc_tag_parse_release_none hrc)]
      exact ih acc
    | false =>
      simp only [hrc, Bool.not_false, if_true, List.foldl_cons]
      exact ih _

theorem foldl_fhMinor_filter_rc (pfx : String) (M m : Nat) :
    ∀ (l : List Tag) (acc : Option (Nat × Nat × Nat)),
      (l.filter (fun t => !is_rc_tag t.name pfx)).foldl
          (findHighestMinorStep pfx M m) acc =
        l.foldl (findHighestMinorStep pfx M m) acc := by
  intro l
  induction l with
  | nil => intro acc; rfl
  | cons t l ih =>
    intro acc
    rw [List.filter_cons]
    cases hrc : is_rc_tag t.name pfx with
    | true =>
      simp only [hrc, Bool.not_true, if_false, List.foldl_cons]
      rw [findHighestMinorStep_nonparse pfx M m acc
        (is_rc_tag_parse_release_none hrc)]
      exact ih acc
    | false =>
      simp only [hrc, Bool.not_false, if_true, List.foldl_cons]
      exact ih _

/-- A create request emitted by `_update_or_create_alias` always targets
the alias itself, at the given commit, and only when the alias does not
yet exist. -/
theorem createTag_mem_updateOrCreateAlias {api : Api} {a s nm cs msg : String}
    (h : ApiCall.createTag nm cs msg ∈ updateOrCreateAlias api a s) :
    nm = a ∧ cs = s ∧ (apiTagExists api a).1 = false := by
  simp only [updateOrCreateAlias] at h
  by_cases hx : (apiTagExists api a).1 = true
  · rw [if_pos hx] at h
    simp [apiTagExists] at h
  · rw [if_neg hx] at h
    simp [apiTagExists] at h
    exact ⟨h.1, h.2.1, by simpa using hx⟩

/-! ## Claim C8 -/

/-- C8: RC tags never influence alias decisions: for every tag listing and
prefix, `update_alias_tags` applied to a tag that classifies as RC returns
`{major: false, minor: false}` and performs no collaborator call at all
(in particular no tag mutation), and RC-shaped tags in the listing never
contribute to `find_highest_major_version` or
`find_highest_minor_version` (removing them changes neither result). -/
theorem C8_rc_never_influences_aliases :
    (∀ (api : Api) (name sha pfx : String) (skip : Bool),
      is_rc_tag name pfx = true →
      update_alias_tags api name sha pfx skip = (⟨false, false⟩, [])) ∧
    (∀ (api : Api) (M : Nat) (pfx : String),
      (find_highest_major_version
        ⟨api.tags.filter (fun t => !is_rc_tag t.name pfx),
         api.branchCommits⟩ M pfx).1 =
      (find_highest_major_version api M pfx).1) ∧
    (∀ (api : Api) (M m : Nat) (pfx : String),
      (find_highest_minor_version
        ⟨api.tags.filter (fun t => !is_rc_tag t.name pfx),
         api.branchCommits⟩ M m pfx).1 =
      (find_highest_minor_version api M m pfx).1) := by
  refine ⟨?_, ?_, ?_⟩
  · intro api name sha pfx skip h
    rw [update_alias_tags, if_pos h]
  · intro api M pfx
    simp only [find_highest_major_version, apiListTags]
    exact foldl_fhMajor_filter_rc pfx M api.tags none
  · intro api M m pfx
    simp only [find_highest_minor_version, apiListTags]
    exact foldl_fhMinor_filter_rc pfx M m api.tags none

/-- Concrete instantiation of C8: an RC tag push touches no aliases. -/
theorem C8_rc_never_influences_aliases_witness :
    update_alias_tags ⟨[⟨"v1.2.0", "x"⟩], fun _ => none⟩
      "v1.2.0-rc1" "abc" "v" false = (⟨false, false⟩, []) :=
  C8_rc_never_influences_aliases.1 ⟨[⟨"v1.2.0", "x"⟩], fun _ => none⟩
    "v1.2.0-rc1" "abc" "v" false (by decide)

/-! ## Claim C2 -/

theorem digitsToNat_cons_zero (l : List Char) :
    digitsToNat ('0' :: l) = digitsToNat l := by
  have h0 : digitVal '0' = 0 := by decide
  simp [digitsToNat, List.foldl_cons, h0]

/-- C2 counterexample: the tag classifiers are built from `\d+` groups and
therefore accept numeric components with leading zeros — `v01.2.3`
parses as the release `(1, 2, 3)` (and classifies as a patch tag),
`v1.02.0` classifies as GA, and `v1.2.0-rc01` classifies as RC, where the
claim says all of them are Unrecognized. -/
theorem C2_leading_zero_counterexample :
    parse_release_tag "v01.2.3" "v" = some (1, 2, 3) ∧
    is_patch_tag "v01.2.3" "v" = true ∧
    is_ga_tag "v1.02.0" "v" = true ∧
    is_rc_tag "v1.2.0-rc01" "v" = true := by decide

/-- C2 amended: the tag grammar accepts leading zeros in every numeric
component (the branch grammar alone rejects them): for every prefix,
prepending `'0'` to the major component of a well-formed GA/patch tag
still parses, to the same `(major, minor, patch)` triple (the leading
zero is normalized away by integer conversion), and an RC numeral with a
leading zero still classifies as RC.  Branch names with a leading zero
are rejected, as the claim's cited spec sentence states for branches. -/
theorem C2_leading_zero_accepted (pfx : String) (M m p n : Nat) :
    parse_release_tag
      ⟨pfx.data ++ ('0' :: natToDigits M ++ '.' :: (natToDigits m ++
        '.' :: natToDigits p))⟩ pfx = some (M, m, p) ∧
    is_rc_tag
      ⟨pfx.data ++ (natToDigits M ++ '.' :: (natToDigits m ++
        '.' :: '0' :: '-' :: 'r' :: 'c' :: '0' :: natToDigits n))⟩ pfx =
      true ∧
    parse_branch
      ⟨"release/v".data ++ ('0' :: natToDigits M ++ '.' :: natToDigits m)⟩
      "release/v" = none := by
  refine ⟨?_, ?_, ?_⟩
  · rw [parse_release_tag, patchParse]
    rw [show (String.mk (pfx.data ++ ('0' :: natToDigits M ++
        '.' :: (natToDigits m ++ '.' :: natToDigits p)))).data =
      pfx.data ++ (('0' :: natToDigits M) ++
        '.' :: (natToDigits m ++ '.' :: natToDigits p)) by simp]
    rw [stripLit_append, Option.some_bind]
    rw [parsePatchSuffix_components (by simp)
      (by
        intro c hc
        rcases List.mem_cons.mp hc with hc | hc
        · rw [hc]; decide
        · exact natToDigits_all_digit M c hc)
      (natToDigits_ne_nil m) (natToDigits_all_digit m)
      (natToDigits_ne_nil p) (natToDigits_all_digit p)]
    rw [digitsToNat_cons_zero, digitsToNat_natToDigits,
      digitsToNat_natToDigits, digitsToNat_natToDigits]
  · rw [is_rc_tag, rcParse]
    rw [show (String.mk (pfx.data ++ (natToDigits M ++
        '.' :: (natToDigits m ++ '.' :: '0' :: '-' :: 'r' :: 'c' ::
          '0' :: natToDigits n)))).data =
      pfx.data ++ (natToDigits M ++ '.' :: (natToDigits m ++
        '.' :: '0' :: '-' :: 'r' :: 'c' :: ('0' :: natToDigits n))) by simp]
    rw [stripLit_append, Option.some_bind]
    rw [parseRcSuffix_components (natToDigits_ne_nil M)
      (natToDigits_all_digit M) (natToDigits_ne_nil m)
      (natToDigits_all_digit m) (by simp)
      (by
        intro c hc
        rcases List.mem_cons.mp hc with hc | hc
        · rw [hc]; decide
        · exact natToDigits_all_digit n c hc)]
    rfl
  · have all0 : ∀ c ∈ '0' :: natToDigits M, c.isDigit = true := by
      intro c hc
      rcases List.mem_cons.mp hc with hc | hc
      · rw [hc]; decide
      · exact natToDigits_all_digit M c hc
    have hd : (('0' :: natToDigits M) ++ '.' :: natToDigits m).takeWhile
        Char.isDigit = '0' :: natToDigits M :=
      takeWhile_append_not _ all0 (by decide)
    have hnum : readNoLeadZeroNum (('0' :: natToDigits M) ++
        '.' :: natToDigits m) = none := by
      rw [readNoLeadZeroNum]
      simp only [hd]
      rw [if_neg (by simp)]
      rw [if_pos ⟨by simp, by
        simp only [List.length_cons]
        intro hlen
        exact natToDigits_ne_nil M (List.length_eq_zero.mp (by omega))⟩]
    have hne : String.mk ("release/v".data ++ ('0' :: natToDigits M ++
        '.' :: natToDigits m)) ≠ "" := by
      intro h
      have h2 := congrArg String.data h
      simp only at h2
      rcases List.append_eq_nil.mp h2 with ⟨h3, _⟩
      exact absurd h3 (by decide)
    rw [parse_branch, if_neg hne]
    rw [show (String.mk ("release/v".data ++ ('0' :: natToDigits M ++
        '.' :: natToDigits m))).data =
      "release/v".data ++ (('0' :: natToDigits M) ++
        '.' :: natToDigits m) by simp]
    rw [stripLit_append]
    dsimp only
    rw [parseBranchSuffix, hnum]
    rfl

/-! ## Evaluation lemmas for the commit-push handler -/

theorem string_eq_empty_iff (s : String) : s = "" ↔ s.data = [] := by
  rw [String.ext_iff]

theorem isPrefixOf_nil_false {p : List Char} (h : p ≠ []) :
    p.isPrefixOf ([] : List Char) = false := by
  cases p with
  | nil => exact absurd rfl h
  | cons a l => rfl

/-- A name carrying a non-empty prefix is non-empty (so Python string
truthiness of the guard's result is just "found"). -/
theorem name_ne_empty_of_isPrefixOf {pfx nm : String} (hp : pfx ≠ "")
    (h : pfx.data.isPrefixOf nm.data = true) : nm ≠ "" := by
  intro h0
  rw [(string_eq_empty_iff nm).mp h0] at h
  rw [isPrefixOf_nil_false
    (fun hh => hp ((string_eq_empty_iff pfx).mpr hh))] at h
  exact Bool.false_ne_true h

/-- Evaluation of the duplicate-tag guard when a matching tag exists:
`_commit_has_version_tag` returns the first tag at the commit carrying the
prefix. -/
theorem commit_has_version_tag_found (api : Api) (sha pfx : String)
    (hex : ∃ t ∈ api.tags, t.sha = sha ∧
      pfx.data.isPrefixOf t.name.data = true) :
    ∃ t', t' ∈ api.tags ∧ t'.sha = sha ∧
      pfx.data.isPrefixOf t'.name.data = true ∧
      (commit_has_version_tag api sha pfx).1 = some t'.name := by
  obtain ⟨t, htmem, hsha, hpref⟩ := hex
  have hsome : (api.tags.find? fun t =>
      t.sha = sha ∧ pfx.data.isPrefixOf t.name.data).isSome := by
    rw [List.find?_isSome]
    exact ⟨t, htmem, by simp [hsha, hpref]⟩
  obtain ⟨t0, hf⟩ := Option.isSome_iff_exists.mp hsome
  have hp0 := List.find?_some hf
  simp only [decide_eq_true_eq] at hp0
  refine ⟨t0, List.mem_of_find?_eq_some hf, hp0.1, by simp [hp0.2], ?_⟩
  rw [commit_has_version_tag]
  dsimp only [apiListTags]
  rw [hf]
  rfl

/-- Evaluation of the duplicate-tag guard when no tag at the commit
carries the prefix. -/
theorem commit_has_version_tag_not_found (api : Api) (sha pfx : String)
    (hnone : ∀ t ∈ api.tags, ¬(t.sha = sha ∧
      pfx.data.isPrefixOf t.name.data = true)) :
    (commit_has_version_tag api sha pfx).1 = none := by
  have hf : api.tags.find? (fun t =>
      t.sha = sha ∧ pfx.data.isPrefixOf t.name.data) = none := by
    rw [List.find?_eq_none]
    intro t ht
    simp only [decide_eq_true_eq]
    exact fun hc => hnone t ht ⟨hc.1, hc.2⟩
  rw [commit_has_version_tag]
  dsimp only [apiListTags]
  rw [hf]
  rfl

/-- Evaluation of the commit-push handler on the guarded (skip) path. -/
theorem handle_commit_push_skip (api : Api) (context : GitHubContext)
    (inputs : ActionInputs) (bn : Option String) (v : BranchVersion)
    (hparse : parse_branch (resolveBranch bn context.ref_name)
      inputs.release_pfx = some v)
    (hpfx : inputs.tag_pfx ≠ "")
    (hex : ∃ t ∈ api.tags, t.sha = context.sha ∧
      inputs.tag_pfx.data.isPrefixOf t.name.data = true) :
    ∃ t', t' ∈ api.tags ∧ t'.sha = context.sha ∧
      inputs.tag_pfx.data.isPrefixOf t'.name.data = true ∧
      handle_commit_push api context inputs bn =
        ({ tag := t'.name, tag_type := "skipped",
           major := natToStr v.major, minor := natToStr v.minor },
         [ApiCall.listTags]) := by
  obtain ⟨t0, hmem, hsha, hpref, hguard⟩ :=
    commit_has_version_tag_found api context.sha inputs.tag_pfx hex
  have hne := name_ne_empty_of_isPrefixOf hpfx hpref
  refine ⟨t0, hmem, hsha, hpref, ?_⟩
  rw [handle_commit_push]
  dsimp only
  rw [hparse]
  dsimp only
  rw [hguard]
  rw [show strTruthy (some t0.name) = true by simp [strTruthy, hne]]
  simp only [if_true, ite_true]
  rw [show (commit_has_version_tag api context.sha inputs.tag_pfx).2 =
    [ApiCall.listTags] from rfl]
  rfl

/-- Evaluation of the commit-push handler outputs on the unguarded
(sequencing) path: type and tag follow the GA check, in every dry-run and
alias configuration. -/
theorem handle_commit_push_proceed (api : Api) (context : GitHubContext)
    (inputs : ActionInputs) (bn : Option String) (v : BranchVersion)
    (hparse : parse_branch (resolveBranch bn context.ref_name)
      inputs.release_pfx = some v)
    (hnone : ∀ t ∈ api.tags, ¬(t.sha = context.sha ∧
      inputs.tag_pfx.data.isPrefixOf t.name.data = true)) :
    (handle_commit_push api context inputs bn).1 =
      { tag := if (ga_exists api v.major v.minor inputs.tag_pfx).1 then
          (get_next_patch_tag api v.major v.minor inputs.tag_pfx).1
        else (get_next_rc_tag api v.major v.minor inputs.tag_pfx).1,
        tag_type := if (ga_exists api v.major v.minor inputs.tag_pfx).1 then
          "patch" else "rc",
        major := natToStr v.major, minor := natToStr v.minor } ∧
    (inputs.dry_run = true →
      (handle_commit_push api context inputs bn).2 =
        [ApiCall.listTags,
         ApiCall.tagExists (mkGaTagName inputs.tag_pfx v.major v.minor),
         ApiCall.listTags]) := by
  have hguard := commit_has_version_tag_not_found api context.sha
    inputs.tag_pfx hnone
  constructor
  · rw [handle_commit_push]
    dsimp only
    rw [hparse]
    dsimp only
    rw [hguard]
    rw [show strTruthy none = false from rfl]
    simp only [Bool.false_eq_true, if_false, ite_false]
    cases hga : (ga_exists api v.major v.minor inputs.tag_pfx).1 with
    | true =>
      simp only [hga, if_true, ite_true]
      cases hdry : inputs.dry_run with
      | true => simp [hdry]
      | false =>
        cases hal : inputs.aliases with
        | true => simp [hdry, hal]
        | false => simp [hdry, hal]
    | false =>
      simp only [hga, Bool.false_eq_true, if_false, ite_false]
      cases hdry : inputs.dry_run with
      | true => simp [hdry]
      | false => simp [hdry]
  · intro hdry
    rw [handle_commit_push]
    dsimp only
    rw [hparse]
    dsimp only
    rw [hguard]
    rw [show strTruthy none = false from rfl]
    simp only [Bool.false_eq_true, if_false, ite_false]
    cases hga : (ga_exists api v.major v.minor inputs.tag_pfx).1 with
    | true =>
      simp only [hga, if_true, ite_true, hdry]
      rw [show (commit_has_version_tag api context.sha inputs.tag_pfx).2 =
        [ApiCall.listTags] from rfl]
      rw [show (ga_exists api v.major v.minor inputs.tag_pfx).2 =
        [ApiCall.tagExists (mkGaTagName inputs.tag_pfx v.major v.minor)]
        from rfl]
      rw [show (get_next_patch_tag api v.major v.minor inputs.tag_pfx).2 =
        [ApiCall.listTags] from rfl]
      rfl
    | false =>
      simp only [hga, Bool.false_eq_true, if_false, ite_false, hdry]
      rw [show (commit_has_version_tag api context.sha inputs.tag_pfx).2 =
        [ApiCall.listTags] from rfl]
      rw [show (ga_exists api v.major v.minor inputs.tag_pfx).2 =
        [ApiCall.tagExists (mkGaTagName inputs.tag_pfx v.major v.minor)]
        from rfl]
      rw [show (get_next_rc_tag api v.major v.minor inputs.tag_pfx).2 =
        [ApiCall.listTags] from rfl]
      rfl

/-! ## Claim C6 -/

/-- C6: on the commit-push path, for every tag listing and triggering
commit: if the commit already carries a tag under the configured tag
prefix, no tag creation is requested (the only collaborator call is the
listing read) and the outputs report that existing tag name with type
`skipped`; if it carries none, the normal RC/patch sequencing proceeds
(type and tag follow the GA check). -/
theorem C6_commit_push_duplicate_guard (api : Api) (context : GitHubContext)
    (inputs : ActionInputs) (v : BranchVersion)
    (hparse : parse_branch context.ref_name inputs.release_pfx = some v)
    (hpfx : inputs.tag_pfx ≠ "") :
    ((∃ t ∈ api.tags, t.sha = context.sha ∧
        inputs.tag_pfx.data.isPrefixOf t.name.data = true) →
      (handle_commit_push api context inputs none).1.tag_type = "skipped" ∧
      (∀ c ∈ (handle_commit_push api context inputs none).2,
        c.isMutation = false) ∧
      ∃ t', t' ∈ api.tags ∧ t'.sha = context.sha ∧
        inputs.tag_pfx.data.isPrefixOf t'.name.data = true ∧
        (handle_commit_push api context inputs none).1.tag = t'.name) ∧
    ((∀ t ∈ api.tags, ¬(t.sha = context.sha ∧
        inputs.tag_pfx.data.isPrefixOf t.name.data = true)) →
      (handle_commit_push api context inputs none).1.tag_type =
        (if (ga_exists api v.major v.minor inputs.tag_pfx).1 then "patch"
         else "rc") ∧
      (handle_commit_push api context inputs none).1.tag =
        (if (ga_exists api v.major v.minor inputs.tag_pfx).1 then
          (get_next_patch_tag api v.major v.minor inputs.tag_pfx).1
         else (get_next_rc_tag api v.major v.minor inputs.tag_pfx).1)) := by
  constructor
  · intro hex
    obtain ⟨t', hmem, hsha, hpref, heq⟩ := handle_commit_push_skip api
      context inputs none v hparse hpfx hex
    rw [heq]
    refine ⟨rfl, ?_, t', hmem, hsha, hpref, rfl⟩
    intro c hc
    simp at hc
    rw [hc]
    rfl
  · intro hnone
    obtain ⟨h1, _⟩ := handle_commit_push_proceed api context inputs none v
      hparse hnone
    rw [h1]
    cases hga : (ga_exists api v.major v.minor inputs.tag_pfx).1 <;>
      simp [hga]

/-- Concrete instantiation of C6: a re-delivered push for a commit already
tagged `v1.2.0-rc1` is reported as skipped with that tag. -/
theorem C6_commit_push_duplicate_guard_witness :
    (handle_commit_push ⟨[⟨"v1.2.0-rc1", "abc"⟩], fun _ => none⟩
      ⟨"push", "release/v1.2", "branch", "abc", "r"⟩
      ⟨"t", false, false, "", false, "release/v", "v"⟩ none).1.tag_type =
      "skipped" ∧
    (handle_commit_push ⟨[⟨"v1.2.0-rc1", "abc"⟩], fun _ => none⟩
      ⟨"push", "release/v1.2", "branch", "abc", "r"⟩
      ⟨"t", false, false, "", false, "release/v", "v"⟩ none).1.tag =
      "v1.2.0-rc1" :=
  ⟨((C6_commit_push_duplicate_guard ⟨[⟨"v1.2.0-rc1", "abc"⟩],
      fun _ => none⟩
    ⟨"push", "release/v1.2", "branch", "abc", "r"⟩
    ⟨"t", false, false, "", false, "release/v", "v"⟩ ⟨1, 2⟩
    (by decide) (by decide)).1
    ⟨⟨"v1.2.0-rc1", "abc"⟩, by decide, by decide, by decide⟩).1,
   by decide⟩

/-! ## Claim C10 -/

/-- C10 (implicit): the duplicate-tag guard on the commit-push path
matches by string prefix only, not by version shape — any listed tag whose
commit is the triggering commit and whose name merely starts with the
configured prefix suppresses tag creation and is reported back, with no
requirement that the name parse as a version (alias tags and arbitrary
prefix-sharing names qualify). -/
theorem C10_guard_matches_by_prefix_only (api : Api)
    (context : GitHubContext) (inputs : ActionInputs) (v : BranchVersion)
    (hparse : parse_branch context.ref_name inputs.release_pfx = some v)
    (hpfx : inputs.tag_pfx ≠ "")
    (hex : ∃ t ∈ api.tags, t.sha = context.sha ∧
      inputs.tag_pfx.data.isPrefixOf t.name.data = true) :
    (handle_commit_push api context inputs none).1.tag_type = "skipped" ∧
    (∀ n s msg, ApiCall.createTag n s msg ∉
      (handle_commit_push api context inputs none).2) ∧
    ∃ t', t' ∈ api.tags ∧ t'.sha = context.sha ∧
      inputs.tag_pfx.data.isPrefixOf t'.name.data = true ∧
      (handle_commit_push api context inputs none).1.tag = t'.name := by
  obtain ⟨t', hmem, hsha, hpref, heq⟩ := handle_commit_push_skip api
    context inputs none v hparse hpfx hex
  rw [heq]
  refine ⟨rfl, ?_, t', hmem, hsha, hpref, rfl⟩
  intro n s msg hc
  simp at hc

/-- Concrete instantiation of C10: under prefix `v`, the tag
`verbose-notes` — which is no version at all — suppresses creation and is
reported back. -/
theorem C10_guard_matches_by_prefix_only_witness :
    (handle_commit_push ⟨[⟨"verbose-notes", "abc"⟩], fun _ => none⟩
      ⟨"push", "release/v1.2", "branch", "abc", "r"⟩
      ⟨"t", false, false, "", false, "release/v", "v"⟩ none).1.tag_type =
      "skipped" ∧
    parse_release_tag "verbose-notes" "v" = none ∧
    (handle_commit_push ⟨[⟨"verbose-notes", "abc"⟩], fun _ => none⟩
      ⟨"push", "release/v1.2", "branch", "abc", "r"⟩
      ⟨"t", false, false, "", false, "release/v", "v"⟩ none).1.tag =
      "verbose-notes" :=
  ⟨(C10_guard_matches_by_prefix_only ⟨[⟨"verbose-notes", "abc"⟩],
      fun _ => none⟩
    ⟨"push", "release/v1.2", "branch", "abc", "r"⟩
    ⟨"t", false, false, "", false, "release/v", "v"⟩ ⟨1, 2⟩
    (by decide) (by decide)
    ⟨⟨"verbose-notes", "abc"⟩, by decide, by decide, by decide⟩).1,
   by decide, by decide⟩

/-! ## Claim C4 -/

/-- C4 counterexample: a single commit-push invocation calls `listTags`
twice (once in the duplicate-tag guard, once in `find_latest_rc`), not
exactly once — each helper re-fetches the listing through the
collaborator it is handed, as `find_latest_rc` and
`find_highest_major_version` do in the source. -/
theorem C4_listTags_twice_counterexample :
    (handle_commit_push ⟨[], fun _ => none⟩
      ⟨"push", "release/v1.2", "branch", "abc", "r"⟩
      ⟨"t", false, true, "", false, "release/v", "v"⟩ none).2 =
      [ApiCall.listTags, ApiCall.tagExists "v1.2.0", ApiCall.listTags] ∧
    ((handle_commit_push ⟨[], fun _ => none⟩
      ⟨"push", "release/v1.2", "branch", "abc", "r"⟩
      ⟨"t", false, true, "", false, "release/v", "v"⟩ none).2.count
        ApiCall.listTags) ≠ 1 := by decide

/-- C4 amended: `listTags` is invoked once per helper that needs the
listing, not once per invocation: on the unguarded dry-run commit-push
path the trace is exactly the guard's listing read, the GA existence
check, and the sequencer's listing read — two `listTags` calls.  Because
the collaborator snapshot is fixed within an invocation, every decision
is still computed against the same listing content. -/
theorem C4_listTags_once_per_helper (api : Api) (context : GitHubContext)
    (inputs : ActionInputs) (v : BranchVersion)
    (hparse : parse_branch context.ref_name inputs.release_pfx = some v)
    (hnone : ∀ t ∈ api.tags, ¬(t.sha = context.sha ∧
      inputs.tag_pfx.data.isPrefixOf t.name.data = true))
    (hdry : inputs.dry_run = true) :
    (handle_commit_push api context inputs none).2 =
      [ApiCall.listTags,
       ApiCall.tagExists (mkGaTagName inputs.tag_pfx v.major v.minor),
       ApiCall.listTags] ∧
    ((handle_commit_push api context inputs none).2.count
      ApiCall.listTags) = 2 := by
  obtain ⟨_, h2⟩ := handle_commit_push_proceed api context inputs none v
    hparse hnone
  have ht := h2 hdry
  refine ⟨ht, ?_⟩
  rw [ht]
  simp [List.count_cons]

/-- Concrete instantiation of the amended C4. -/
theorem C4_listTags_once_per_helper_witness :
    (handle_commit_push ⟨[⟨"w1.0.0", "zzz"⟩], fun _ => none⟩
      ⟨"push", "release/v1.2", "branch", "abc", "r"⟩
      ⟨"t", false, true, "", false, "release/v", "v"⟩ none).2 =
      [ApiCall.listTags, ApiCall.tagExists (mkGaTagName "v" 1 2),
       ApiCall.listTags] ∧
    ((handle_commit_push ⟨[⟨"w1.0.0", "zzz"⟩], fun _ => none⟩
      ⟨"push", "release/v1.2", "branch", "abc", "r"⟩
      ⟨"t", false, true, "", false, "release/v", "v"⟩ none).2.count
        ApiCall.listTags) = 2 :=
  C4_listTags_once_per_helper ⟨[⟨"w1.0.0", "zzz"⟩], fun _ => none⟩
    ⟨"push", "release/v1.2", "branch", "abc", "r"⟩
    ⟨"t", false, true, "", false, "release/v", "v"⟩ ⟨1, 2⟩
    (by decide) (by decide) (by decide)

/-! ## Claim C3 -/

/-- Helper for C3: whenever some listed tag already sits at the triggering
commit under the configured (non-empty) prefix, the commit-push handler
requests no tag creation at all, whatever the branch override. -/
theorem commit_push_no_create_when_guarded (api : Api)
    (context : GitHubContext) (inputs : ActionInputs) (bn : Option String)
    (hpfx : inputs.tag_pfx ≠ "")
    (hex : ∃ t ∈ api.tags, t.sha = context.sha ∧
      inputs.tag_pfx.data.isPrefixOf t.name.data = true) :
    ∀ n s msg, ApiCall.createTag n s msg ∉
      (handle_commit_push api context inputs bn).2 := by
  intro n s msg hc
  cases hp : parse_branch (resolveBranch bn context.ref_name)
    inputs.release_pfx with
  | none =>
    rw [handle_commit_push] at hc
    dsimp only at hc
    rw [hp] at hc
    simp at hc
  | some v =>
    obtain ⟨t', _, _, _, heq⟩ := handle_commit_push_skip api context inputs
      bn v hp hpfx hex
    rw [heq] at hc
    simp at hc

/-- Helper for C3: every create request emitted by `update_alias_tags`
targets a tag name absent from the listing (creation happens only in
`_update_or_create_alias`, guarded by `tag_exists`). -/
theorem update_alias_tags_createTag_not_exists {api : Api}
    {nm s pfx : String} {skip : Bool} {n cs msg : String}
    (h : ApiCall.createTag n cs msg ∈
      (update_alias_tags api nm s pfx skip).2) :
    (apiTagExists api n).1 = false := by
  rw [update_alias_tags] at h
  by_cases hrc : is_rc_tag nm pfx = true
  · rw [if_pos hrc] at h
    simp at h
  · rw [if_neg hrc] at h
    cases hp : parse_release_tag nm pfx with
    | none =>
      rw [hp] at h
      simp at h
    | some v =>
      rw [hp] at h
      obtain ⟨M, m, p⟩ := v
      dsimp only at h
      rcases List.mem_append.mp h with h | h
      · cases skip with
        | true =>
          rw [if_neg (by simp)] at h
          simp at h
        | false =>
          rw [if_pos (by simp)] at h
          cases hfm : (find_highest_minor_version api M m pfx).1 with
          | none =>
            rw [hfm] at h
            simp [find_highest_minor_version, apiListTags] at h
          | some hv =>
            rw [hfm] at h
            dsimp only at h
            by_cases htg : tripleGe (M, m, p) hv = true
            · rw [if_pos htg] at h
              dsimp only at h
              rcases List.mem_append.mp h with h | h
              · simp [find_highest_minor_version, apiListTags] at h
              · obtain ⟨hn, _, hne⟩ := createTag_mem_updateOrCreateAlias h
                rw [hn]
                exact hne
            · rw [if_neg htg] at h
              simp [find_highest_minor_version, apiListTags] at h
      · cases hfM : (find_highest_major_version api M pfx).1 with
        | none =>
          rw [hfM] at h
          simp [find_highest_major_version, apiListTags] at h
        | some hv =>
          rw [hfM] at h
          dsimp only at h
          by_cases htg : tripleGe (M, m, p) hv = true
          · rw [if_pos htg] at h
            dsimp only at h
            rcases List.mem_append.mp h with h | h
            · simp [find_highest_major_version, apiListTags] at h
            · obtain ⟨hn, _, hne⟩ := createTag_mem_updateOrCreateAlias h
              rw [hn]
              exact hne
          · rw [if_neg htg] at h
            simp [find_highest_major_version, apiListTags] at h

/-- Helper for C3: every create request emitted by the tag-push handler
targets a tag name absent from the listing (the handler itself creates
nothing; only alias creation can occur, and only for absent aliases). -/
theorem tag_push_creates_only_absent (api : Api) (context : GitHubContext)
    (inputs : ActionInputs) :
    ∀ n s msg, ApiCall.createTag n s msg ∈
      (handle_tag_push api context inputs).2 →
      (apiTagExists api n).1 = false := by
  intro n s msg h
  rw [handle_tag_push] at h
  cases hp : parse_tag_version context.ref_name inputs.tag_pfx with
  | none =>
    rw [hp] at h
    simp at h
  | some v =>
    rw [hp] at h
    obtain ⟨M, m⟩ := v
    dsimp only at h
    by_cases hval : (validate_tag_on_branch api context.sha
        (mkReleaseBranchName inputs.release_pfx M m)).1 = true
    · rw [if_neg (by simp [hval])] at h
      by_cases hrc : is_rc_tag context.ref_name inputs.tag_pfx = true
      · rw [if_pos hrc] at h
        simp [validate_tag_on_branch] at h
        rcases hbc : api.branchCommits
          (mkReleaseBranchName inputs.release_pfx M m) with _ | l <;>
          rw [hbc] at h <;> simp at h
      · rw [if_neg hrc] at h
        by_cases hga : is_ga_tag context.ref_name inputs.tag_pfx = true
        · rw [if_pos hga] at h
          by_cases hda : ¬inputs.dry_run = true ∧ inputs.aliases = true
          · rw [if_pos hda] at h
            dsimp only at h
            rcases List.mem_append.mp h with h | h
            · rcases hbc : api.branchCommits
                (mkReleaseBranchName inputs.release_pfx M m) with _ | l <;>
                simp [validate_tag_on_branch, hbc] at h
            · exact update_alias_tags_createTag_not_exists h
          · rw [if_neg hda] at h
            rcases hbc : api.branchCommits
              (mkReleaseBranchName inputs.release_pfx M m) with _ | l <;>
              simp [validate_tag_on_branch, hbc] at h
        · rw [if_neg hga] at h
          by_cases hda : ¬inputs.dry_run = true ∧ inputs.aliases = true
          · rw [if_pos hda] at h
            dsimp only at h
            rcases List.mem_append.mp h with h | h
            · rcases hbc : api.branchCommits
                (mkReleaseBranchName inputs.release_pfx M m) with _ | l <;>
                simp [validate_tag_on_branch, hbc] at h
            · exact update_alias_tags_createTag_not_exists h
          · rw [if_neg hda] at h
            rcases hbc : api.branchCommits
              (mkReleaseBranchName inputs.release_pfx M m) with _ | l <;>
              simp [validate_tag_on_branch, hbc] at h
    · rw [if_pos (by simpa using hval)] at h
      rcases hbc : api.branchCommits
        (mkReleaseBranchName inputs.release_pfx M m) with _ | l <;>
        simp [validate_tag_on_branch, hbc] at h

/-- C3 counterexample: re-running the branch-create path on the same
input — same branch, same head commit, and a listing already containing
the `v1.2.0-rc1` produced by the first run at that very commit — requests
creation of `v1.2.0-rc1` again: the handler computes rc1 literally and
never consults the listing. -/
theorem C3_branch_create_rerun_counterexample :
    (⟨"v1.2.0-rc1", "abc"⟩ : Tag) ∈
      ([⟨"v1.2.0-rc1", "abc"⟩] : List Tag) ∧
    (handle_branch_create ⟨[⟨"v1.2.0-rc1", "abc"⟩], fun _ => none⟩
      ⟨"create", "release/v1.2", "branch", "abc", "r"⟩
      ⟨"t", false, false, "", false, "release/v", "v"⟩).2 =
      [ApiCall.createTag "v1.2.0-rc1" "abc"
        "Release candidate v1.2.0-rc1"] := by decide

/-- C3 amended: re-running on the same input never requests a duplicate
tag on the commit-push, workflow-dispatch and tag-push paths — the
duplicate-tag guard suppresses creation on the push paths, and the
tag-push path only ever creates aliases that are absent from the
listing — but the branch-create path (see the counterexample)
unconditionally re-requests `{tagPrefix}{major}.{minor}.0-rc1`, relying
on the collaborator's uniqueness constraint to reject the duplicate. -/
theorem C3_rerun_requests_no_duplicate_except_branch_create :
    (∀ (api : Api) (context : GitHubContext) (inputs : ActionInputs)
        (bn : Option String),
      inputs.tag_pfx ≠ "" →
      (∃ t ∈ api.tags, t.sha = context.sha ∧
        inputs.tag_pfx.data.isPrefixOf t.name.data = true) →
      ∀ n s msg, ApiCall.createTag n s msg ∉
        (handle_commit_push api context inputs bn).2) ∧
    (∀ (api : Api) (context : GitHubContext) (inputs : ActionInputs),
      ∀ n s msg, ApiCall.createTag n s msg ∈
        (handle_tag_push api context inputs).2 →
        (apiTagExists api n).1 = false) ∧
    (∀ (api : Api) (context : GitHubContext) (inputs : ActionInputs),
      inputs.tag_pfx ≠ "" →
      (∃ t ∈ api.tags, t.sha = context.sha ∧
        inputs.tag_pfx.data.isPrefixOf t.name.data = true) →
      ∀ n s msg, ApiCall.createTag n s msg ∉
        (handle_workflow_dispatch api context inputs).2) := by
  refine ⟨commit_push_no_create_when_guarded, ?_, ?_⟩
  · intro api context inputs n s msg h
    exact tag_push_creates_only_absent api context inputs n s msg h
  · intro api context inputs hpfx hex n s msg hc
    rw [handle_workflow_dispatch] at hc
    cases hp : parse_branch
      (if inputs.target_branch = "" then context.ref_name
       else inputs.target_branch) inputs.release_pfx with
    | none =>
      rw [hp] at hc
      simp at hc
    | some v =>
      rw [hp] at hc
      dsimp only at hc
      exact commit_push_no_create_when_guarded api context inputs
        (some (if inputs.target_branch = "" then context.ref_name
          else inputs.target_branch)) hpfx hex n s msg hc

/-- Concrete instantiation of the amended C3: a re-delivered commit push
for an already-tagged commit requests no tag creation. -/
theorem C3_rerun_requests_no_duplicate_except_branch_create_witness :
    ApiCall.createTag "v1.2.0-rc1" "abc" "Release candidate v1.2.0-rc1" ∉
      (handle_commit_push ⟨[⟨"v1.2.0-rc1", "abc"⟩], fun _ => none⟩
        ⟨"push", "release/v1.2", "branch", "abc", "r"⟩
        ⟨"t", false, false, "", false, "release/v", "v"⟩ none).2 :=
  C3_rerun_requests_no_duplicate_except_branch_create.1
    ⟨[⟨"v1.2.0-rc1", "abc"⟩], fun _ => none⟩
    ⟨"push", "release/v1.2", "branch", "abc", "r"⟩
    ⟨"t", false, false, "", false, "release/v", "v"⟩ none (by decide)
    ⟨⟨"v1.2.0-rc1", "abc"⟩, by decide, by decide, by decide⟩
    "v1.2.0-rc1" "abc" "Release candidate v1.2.0-rc1"

/-! ## Claim C1 -/

/-- C1 counterexample: with an empty tag listing (so
`find_highest_major_version` and `find_highest_minor_version` both return
`none` — the first release ever for the major), processing the patch
release `v1.2.3` through `update_alias_tags` creates nothing: it reports
`{major: false, minor: false}` and its trace holds only the two listing
reads, no tag mutation — where the claim says the major and minor aliases
are created and `true` is reported. -/
theorem C1_first_release_counterexample :
    (find_highest_major_version ⟨[], fun _ => none⟩ 1 "v").1 = none ∧
    (find_highest_minor_version ⟨[], fun _ => none⟩ 1 2 "v").1 = none ∧
    parse_release_tag "v1.2.3" "v" = some (1, 2, 3) ∧
    update_alias_tags ⟨[], fun _ => none⟩ "v1.2.3" "abc" "v" false =
      (⟨false, false⟩, [ApiCall.listTags, ApiCall.listTags]) := by decide

/-- C1 amended: `update_alias_tags` touches an alias only when the
corresponding series already has a GA/patch tag in the listing: when
`find_highest_major_version` returns `none` it reports `major = false`
(and mutates nothing), and when it returns `some h` it updates the major
alias and reports `major = true` exactly when
`(major, minor, patch) >= h`; analogously for the minor alias when
`skip_minor_alias` is false, and `minor = false` always when it is
true. -/
theorem C1_alias_update_requires_existing_highest (api : Api)
    (name sha pfx : String) (skip : Bool) (M m p : Nat)
    (hparse : parse_release_tag name pfx = some (M, m, p)) :
    ((find_highest_major_version api M pfx).1 = none →
      (update_alias_tags api name sha pfx skip).1.major = false) ∧
    (∀ h, (find_highest_major_version api M pfx).1 = some h →
      (update_alias_tags api name sha pfx skip).1.major =
        tripleGe (M, m, p) h) ∧
    (skip = false →
      (find_highest_minor_version api M m pfx).1 = none →
      (update_alias_tags api name sha pfx skip).1.minor = false) ∧
    (skip = false →
      ∀ h, (find_highest_minor_version api M m pfx).1 = some h →
      (update_alias_tags api name sha pfx skip).1.minor =
        tripleGe (M, m, p) h) ∧
    (skip = true →
      (update_alias_tags api name sha pfx skip).1.minor = false) ∧
    ((find_highest_major_version api M pfx).1 = none →
      (find_highest_minor_version api M m pfx).1 = none →
      ∀ c ∈ (update_alias_tags api name sha pfx skip).2,
        c = ApiCall.listTags) := by
  have hrc := parse_release_some_not_rc hparse
  refine ⟨?_, ?_, ?_, ?_, ?_, ?_⟩
  · intro hmaj
    rw [update_alias_tags, if_neg (by simp [hrc]), hparse]
    dsimp only
    rw [hmaj]
  · intro h hmaj
    rw [update_alias_tags, if_neg (by simp [hrc]), hparse]
    dsimp only
    rw [hmaj]
    dsimp only
    cases htg : tripleGe (M, m, p) h with
    | true => simp
    | false => simp
  · intro hskip hmin
    subst hskip
    rw [update_alias_tags, if_neg (by simp [hrc]), hparse]
    dsimp only
    rw [if_pos (by simp), hmin]
  · intro hskip h hmin
    subst hskip
    rw [update_alias_tags, if_neg (by simp [hrc]), hparse]
    dsimp only
    rw [if_pos (by simp), hmin]
    dsimp only
    cases htg : tripleGe (M, m, p) h with
    | true => simp
    | false => simp
  · intro hskip
    subst hskip
    rw [update_alias_tags, if_neg (by simp [hrc]), hparse]
    dsimp only
    rw [if_neg (by simp)]
  · intro hmaj hmin
    rw [update_alias_tags, if_neg (by simp [hrc]), hparse]
    dsimp only
    rw [hmaj]
    cases skip with
    | true =>
      rw [if_neg (by simp)]
      intro c hc
      simp [find_highest_major_version, apiListTags] at hc
      rw [hc]
    | false =>
      rw [if_pos (by simp), hmin]
      intro c hc
      simp [find_highest_major_version, find_highest_minor_version,
        apiListTags] at hc
      exact hc

/-- Concrete instantiation of the amended C1: on an empty listing the
processed release `v1.2.3` leaves the major alias untouched. -/
theorem C1_alias_update_requires_existing_highest_witness :
    (update_alias_tags ⟨[], fun _ => none⟩ "v1.2.3" "abc" "v" false).1.major =
      false :=
  (C1_alias_update_requires_existing_highest ⟨[], fun _ => none⟩
    "v1.2.3" "abc" "v" false 1 2 3 (by decide)).1 (by decide)

/-! ## Claim C9 -/

theorem mutTargets_append (l1 l2 : List ApiCall) :
    mutTargets (l1 ++ l2) = mutTargets l1 ++ mutTargets l2 := by
  rw [mutTargets, mutTargets, mutTargets, List.filterMap_append]

theorem mutTargets_updateOrCreateAlias (api : Api) (a s : String) :
    mutTargets (updateOrCreateAlias api a s) = [(a, s)] := by
  rw [updateOrCreateAlias]
  cases hx : (apiTagExists api a).1 with
  | true =>
    simp only [if_pos rfl, if_true]
    simp [mutTargets, apiTagExists]
  | false =>
    simp only [Bool.false_eq_true, if_false]
    simp [mutTargets, apiTagExists]

/-- Evaluation of `update_alias_tags` when the processed release is
recorded as the highest of both its minor and its major series: both
aliases are moved (ties resolve through `>=`). -/
theorem update_alias_tags_both_highest (api : Api) (name sha pfx : String)
    (M m p : Nat) (hparse : parse_release_tag name pfx = some (M, m, p))
    (hmin : (find_highest_minor_version api M m pfx).1 = some (M, m, p))
    (hmaj : (find_highest_major_version api M pfx).1 = some (M, m, p)) :
    update_alias_tags api name sha pfx false =
      (⟨true, true⟩,
       (ApiCall.listTags ::
          updateOrCreateAlias api (mkMinorAliasName pfx M m) sha) ++
       (ApiCall.listTags ::
          updateOrCreateAlias api (mkMajorAliasName pfx M) sha)) := by
  have hrc := parse_release_some_not_rc hparse
  rw [update_alias_tags, if_neg (by simp [hrc]), hparse]
  dsimp only
  rw [if_pos (by simp), hmin, hmaj]
  dsimp only
  rw [if_pos (tripleGe_refl (M, m, p)), if_pos (tripleGe_refl (M, m, p))]
  simp [find_highest_minor_version, find_highest_major_version, apiListTags]

theorem mutTargets_cons_listTags (l : List ApiCall) :
    mutTargets (ApiCall.listTags :: l) = mutTargets l := by
  simp [mutTargets]

/-- Replaying a trace whose create requests all target non-release names
leaves `find_highest_minor_version` unchanged. -/
theorem foldl_applyCall_fhMinor (pfx : String) (M m : Nat)
    (bc : String → Option (List String)) :
    ∀ (calls : List ApiCall) (l : List Tag),
      (∀ nm s msg, ApiCall.createTag nm s msg ∈ calls →
        parse_release_tag nm pfx = none) →
      (find_highest_minor_version ⟨calls.foldl applyCall l, bc⟩ M m pfx).1 =
        (find_highest_minor_version ⟨l, bc⟩ M m pfx).1 := by
  intro calls
  induction calls with
  | nil => intro l _; rfl
  | cons c rest ih =>
    intro l hc
    rw [List.foldl_cons]
    rw [ih (applyCall l c) (fun nm s msg hm => hc nm s msg (by simp [hm]))]
    cases c with
    | createTag nm s msg =>
      have hnp : parse_release_tag nm pfx = none :=
        hc nm s msg (by simp)
      simp only [find_highest_minor_version, apiListTags, applyCall]
      exact foldl_fhMinor_append_nonparse pfx M m
        (by intro t ht; simp at ht; rw [ht]; exact hnp) l none
    | updateTag nm s =>
      simp only [find_highest_minor_version, apiListTags, applyCall]
      exact foldl_fhMinor_map_upd pfx M m nm s l none
    | listTags => rfl
    | tagExists a => rfl
    | getBranchCommits b => rfl

/-- Replaying a trace whose create requests all target non-release names
leaves `find_highest_major_version` unchanged. -/
theorem foldl_applyCall_fhMajor (pfx : String) (M : Nat)
    (bc : String → Option (List String)) :
    ∀ (calls : List ApiCall) (l : List Tag),
      (∀ nm s msg, ApiCall.createTag nm s msg ∈ calls →
        parse_release_tag nm pfx = none) →
      (find_highest_major_version ⟨calls.foldl applyCall l, bc⟩ M pfx).1 =
        (find_highest_major_version ⟨l, bc⟩ M pfx).1 := by
  intro calls
  induction calls with
  | nil => intro l _; rfl
  | cons c rest ih =>
    intro l hc
    rw [List.foldl_cons]
    rw [ih (applyCall l c) (fun nm s msg hm => hc nm s msg (by simp [hm]))]
    cases c with
    | createTag nm s msg =>
      have hnp : parse_release_tag nm pfx = none :=
        hc nm s msg (by simp)
      simp only [find_highest_major_version, apiListTags, applyCall]
      exact foldl_fhMajor_append_nonparse pfx M
        (by intro t ht; simp at ht; rw [ht]; exact hnp) l none
    | updateTag nm s =>
      simp only [find_highest_major_version, apiListTags, applyCall]
      exact foldl_fhMajor_map_upd pfx M nm s l none
    | listTags => rfl
    | tagExists a => rfl
    | getBranchCommits b => rfl

/-- Every create request in the trace of an alias update under the premise
of C9 targets one of the two alias names, which never parse as release
tags. -/
theorem aliasTrace_creates_nonparse (api : Api) (sha pfx : String)
    (M m : Nat) :
    ∀ nm s msg, ApiCall.createTag nm s msg ∈
      (ApiCall.listTags ::
        updateOrCreateAlias api (mkMinorAliasName pfx M m) sha) ++
      (ApiCall.listTags ::
        updateOrCreateAlias api (mkMajorAliasName pfx M) sha) →
      parse_release_tag nm pfx = none := by
  intro nm s msg hm
  rcases List.mem_append.mp hm with hm | hm
  · rcases List.mem_cons.mp hm with hm | hm
    · exact absurd hm (by simp)
    · obtain ⟨hn, _, _⟩ := createTag_mem_updateOrCreateAlias hm
      rw [hn]
      exact parse_release_minorAlias pfx M m
  · rcases List.mem_cons.mp hm with hm | hm
    · exact absurd hm (by simp)
    · obtain ⟨hn, _, _⟩ := createTag_mem_updateOrCreateAlias hm
      rw [hn]
      exact parse_release_majorAlias pfx M

/-- C9: `update_alias_tags` is idempotent under re-processing: for every
tag listing that already records the processed release `(M, m, p)` as the
highest of both its minor and its major series, an invocation reports
`{major: true, minor: true}` and requests exactly the two alias
mutations (minor then major, both at the given commit); replaying the
requested trace against the collaborator and invoking again with the same
tag name and commit yields the same `{major, minor}` result and the same
two mutation targets (ties resolve via `>=`, so the already-highest
release still re-moves its aliases; where the first run created an absent
alias, the second force-moves it to the same commit). -/
theorem C9_update_alias_tags_idempotent (api : Api) (name sha pfx : String)
    (M m p : Nat) (hparse : parse_release_tag name pfx = some (M, m, p))
    (hmin : (find_highest_minor_version api M m pfx).1 = some (M, m, p))
    (hmaj : (find_highest_major_version api M pfx).1 = some (M, m, p)) :
    (update_alias_tags api name sha pfx false).1 = ⟨true, true⟩ ∧
    mutTargets (update_alias_tags api name sha pfx false).2 =
      [(mkMinorAliasName pfx M m, sha), (mkMajorAliasName pfx M, sha)] ∧
    (update_alias_tags
        (applyCalls api (update_alias_tags api name sha pfx false).2)
        name sha pfx false).1 =
      (update_alias_tags api name sha pfx false).1 ∧
    mutTargets (update_alias_tags
        (applyCalls api (update_alias_tags api name sha pfx false).2)
        name sha pfx false).2 =
      mutTargets (update_alias_tags api name sha pfx false).2 := by
  have hr1 := update_alias_tags_both_highest api name sha pfx M m p
    hparse hmin hmaj
  have hmuts : mutTargets (update_alias_tags api name sha pfx false).2 =
      [(mkMinorAliasName pfx M m, sha), (mkMajorAliasName pfx M, sha)] := by
    rw [hr1]
    rw [show ((⟨true, true⟩ : AliasResult),
        (ApiCall.listTags ::
          updateOrCreateAlias api (mkMinorAliasName pfx M m) sha) ++
        (ApiCall.listTags ::
          updateOrCreateAlias api (mkMajorAliasName pfx M) sha)).2 =
      (ApiCall.listTags ::
        updateOrCreateAlias api (mkMinorAliasName pfx M m) sha) ++
      (ApiCall.listTags ::
        updateOrCreateAlias api (mkMajorAliasName pfx M) sha) from rfl]
    rw [mutTargets_append, mutTargets_cons_listTags, mutTargets_cons_listTags,
      mutTargets_updateOrCreateAlias, mutTargets_updateOrCreateAlias]
    rfl
  have hmin2 : (find_highest_minor_version
      (applyCalls api (update_alias_tags api name sha pfx false).2)
      M m pfx).1 = some (M, m, p) := by
    rw [hr1]
    rw [show (applyCalls api ((⟨true, true⟩ : AliasResult),
        (ApiCall.listTags ::
          updateOrCreateAlias api (mkMinorAliasName pfx M m) sha) ++
        (ApiCall.listTags ::
          updateOrCreateAlias api (mkMajorAliasName pfx M) sha)).2) =
      ⟨(((ApiCall.listTags ::
          updateOrCreateAlias api (mkMinorAliasName pfx M m) sha) ++
        (ApiCall.listTags ::
          updateOrCreateAlias api (mkMajorAliasName pfx M) sha)).foldl
            applyCall api.tags), api.branchCommits⟩ from rfl]
    rw [foldl_applyCall_fhMinor pfx M m api.branchCommits _ api.tags
      (aliasTrace_creates_nonparse api sha pfx M m)]
    exact hmin
  have hmaj2 : (find_highest_major_version
      (applyCalls api (update_alias_tags api name sha pfx false).2)
      M pfx).1 = some (M, m, p) := by
    rw [hr1]
    rw [show (applyCalls api ((⟨true, true⟩ : AliasResult),
        (ApiCall.listTags ::
          updateOrCreateAlias api (mkMinorAliasName pfx M m) sha) ++
        (ApiCall.listTags ::
          updateOrCreateAlias api (mkMajorAliasName pfx M) sha)).2) =
      ⟨(((ApiCall.listTags ::
          updateOrCreateAlias api (mkMinorAliasName pfx M m) sha) ++
        (ApiCall.listTags ::
          updateOrCreateAlias api (mkMajorAliasName pfx M) sha)).foldl
            applyCall api.tags), api.branchCommits⟩ from rfl]
    rw [foldl_applyCall_fhMajor pfx M api.branchCommits _ api.tags
      (aliasTrace_creates_nonparse api sha pfx M m)]
    exact hmaj
  have hr2 := update_alias_tags_both_highest
    (applyCalls api (update_alias_tags api name sha pfx false).2)
    name sha pfx M m p hparse hmin2 hmaj2
  refine ⟨by rw [hr1], hmuts, by rw [hr2, hr1], ?_⟩
  rw [hr2, hmuts]
  rw [show ((⟨true, true⟩ : AliasResult),
      (ApiCall.listTags :: updateOrCreateAlias
        (applyCalls api (update_alias_tags api name sha pfx false).2)
        (mkMinorAliasName pfx M m) sha) ++
      (ApiCall.listTags :: updateOrCreateAlias
        (applyCalls api (update_alias_tags api name sha pfx false).2)
        (mkMajorAliasName pfx M) sha)).2 =
    (ApiCall.listTags :: updateOrCreateAlias
      (applyCalls api (update_alias_tags api name sha pfx false).2)
      (mkMinorAliasName pfx M m) sha) ++
    (ApiCall.listTags :: updateOrCreateAlias
      (applyCalls api (update_alias_tags api name sha pfx false).2)
      (mkMajorAliasName pfx M) sha) from rfl]
  rw [mutTargets_append, mutTargets_cons_listTags, mutTargets_cons_listTags,
    mutTargets_updateOrCreateAlias, mutTargets_updateOrCreateAlias]
  rfl

/-- Concrete instantiation of C9: reprocessing `v1.2.3` (the only and thus
highest release of its series) re-moves both aliases identically. -/
theorem C9_update_alias_tags_idempotent_witness :
    (update_alias_tags ⟨[⟨"v1.2.3", "abc"⟩], fun _ => none⟩ "v1.2.3" "abc" "v"
        false).1 = ⟨true, true⟩ ∧
    mutTargets (update_alias_tags ⟨[⟨"v1.2.3", "abc"⟩], fun _ => none⟩
        "v1.2.3" "abc" "v" false).2 =
      [(mkMinorAliasName "v" 1 2, "abc"), (mkMajorAliasName "v" 1, "abc")] ∧
    (update_alias_tags (applyCalls ⟨[⟨"v1.2.3", "abc"⟩], fun _ => none⟩
        (update_alias_tags ⟨[⟨"v1.2.3", "abc"⟩], fun _ => none⟩ "v1.2.3"
          "abc" "v" false).2) "v1.2.3" "abc" "v" false).1 =
      (update_alias_tags ⟨[⟨"v1.2.3", "abc"⟩], fun _ => none⟩ "v1.2.3" "abc"
        "v" false).1 ∧
    mutTargets (update_alias_tags (applyCalls ⟨[⟨"v1.2.3", "abc"⟩],
        fun _ => none⟩ (update_alias_tags ⟨[⟨"v1.2.3", "abc"⟩],
          fun _ => none⟩ "v1.2.3" "abc" "v" false).2) "v1.2.3" "abc" "v"
        false).2 =
      mutTargets (update_alias_tags ⟨[⟨"v1.2.3", "abc"⟩], fun _ => none⟩
        "v1.2.3" "abc" "v" false).2 :=
  C9_update_alias_tags_idempotent ⟨[⟨"v1.2.3", "abc"⟩], fun _ => none⟩
    "v1.2.3" "abc" "v" 1 2 3 (by decide) (by decide) (by decide)

/-! ## Claim C7 -/

/-- C7: on a manual tag push whose tag parses under the tag grammar, if
the tag's commit is not contained in the commit history of the
corresponding release branch `{releasePrefix}{major}.{minor}` — including
the case where the collaborator raises during the lookup (`branchCommits`
returning `none`), which is treated as not reachable — the handler
terminates with exit code 1 and its trace holds only the branch-commit
read: no tag creation and no alias mutation is requested. -/
theorem C7_unreachable_tag_push_fatal (api : Api) (context : GitHubContext)
    (inputs : ActionInputs) (M m : Nat)
    (hparse : parse_tag_version context.ref_name inputs.tag_pfx =
      some (M, m))
    (hunreach : ∀ l, api.branchCommits
      (mkReleaseBranchName inputs.release_pfx M m) = some l →
      context.sha ∉ l) :
    handle_tag_push api context inputs =
      (Except.error 1,
       [ApiCall.getBranchCommits
          (mkReleaseBranchName inputs.release_pfx M m)]) ∧
    ∀ c ∈ (handle_tag_push api context inputs).2, c.isMutation = false := by
  have hvalid : validate_tag_on_branch api context.sha
      (mkReleaseBranchName inputs.release_pfx M m) =
      (false, [ApiCall.getBranchCommits
        (mkReleaseBranchName inputs.release_pfx M m)]) := by
    rw [validate_tag_on_branch]
    cases hbc : api.branchCommits (mkReleaseBranchName inputs.release_pfx M m)
      with
    | none => rfl
    | some l =>
      have hnotin := hunreach l hbc
      have hany : l.any (fun s => s = context.sha) = false := by
        rw [List.any_eq_false]
        intro x hx
        simp only [decide_eq_true_eq]
        intro hxs
        exact hnotin (hxs ▸ hx)
      dsimp only
      rw [hany]
  have hmain : handle_tag_push api context inputs =
      (Except.error 1,
       [ApiCall.getBranchCommits
          (mkReleaseBranchName inputs.release_pfx M m)]) := by
    rw [handle_tag_push, hparse]
    dsimp only
    rw [hvalid]
    simp
  refine ⟨hmain, ?_⟩
  rw [hmain]
  intro c hc
  simp at hc
  rw [hc]
  rfl

/-- Concrete instantiation of C7: pushing `v1.2.0` when the branch lookup
for `release/v1.2` raises exits with code 1 and mutates nothing. -/
theorem C7_unreachable_tag_push_fatal_witness :
    handle_tag_push ⟨[], fun _ => none⟩
      ⟨"push", "v1.2.0", "tag", "abc", "r"⟩
      ⟨"t", false, false, "", true, "release/v", "v"⟩ =
      (Except.error 1,
       [ApiCall.getBranchCommits (mkReleaseBranchName "release/v" 1 2)]) :=
  (C7_unreachable_tag_push_fatal ⟨[], fun _ => none⟩
    ⟨"push", "v1.2.0", "tag", "abc", "r"⟩
    ⟨"t", false, false, "", true, "release/v", "v"⟩ 1 2
    (by decide) (by intro l hl; exact absurd hl (by simp))).1

/-! ## Claim C5 -/

/-- C5: for every tag listing, major, minor and prefix, `get_next_rc_tag`
returns `{prefix}{major}.{minor}.0-rc{n}` where `n = 1` if the listing
contains no RC tag of the `(major, minor)` series, and otherwise
`n = (maximum rc number among that series' RC tags) + 1`; consequently `N`
sequential commit-pushes with no GA produce exactly `rc1, rc2, ..., rcN`
with no gaps or repeats. -/
theorem C5_get_next_rc_tag_correct (api : Api) (major minor : Nat)
    (pfx sha : String) (N : Nat) :
    (seriesRcNums api.tags major minor pfx = [] →
      (get_next_rc_tag api major minor pfx).1 =
        mkRcTagName pfx major minor 1) ∧
    (∀ k, (seriesRcNums api.tags major minor pfx).foldl maxO none = some k →
      (get_next_rc_tag api major minor pfx).1 =
        mkRcTagName pfx major minor (k + 1) ∧
      k ∈ seriesRcNums api.tags major minor pfx ∧
      ∀ x ∈ seriesRcNums api.tags major minor pfx, x ≤ k) ∧
    (seriesRcNums api.tags major minor pfx = [] →
      rcRun pfx major minor sha api N =
        (List.range N).map fun i => mkRcTagName pfx major minor (i + 1)) := by
  refine ⟨?_, ?_, ?_⟩
  · intro hempty
    rw [get_next_rc_tag]
    simp only
    rw [find_latest_rc_eq_max, hempty]
    rfl
  · intro k hk
    refine ⟨?_, foldl_maxO_none_spec hk⟩
    rw [get_next_rc_tag]
    simp only
    rw [find_latest_rc_eq_max, hk]
    rfl
  · intro hempty
    have h := rcRun_spec pfx major minor sha N api 0
      (Or.inl ⟨by rw [hempty]; rfl, rfl⟩)
    rw [h]
    apply List.map_congr_left
    intro i _
    congr 1
    omega

/-- Concrete instantiation of C5: with `v1.2.0-rc1` and `v1.2.0-rc2`
listed, the next RC tag for series 1.2 is `v1.2.0-rc3`. -/
theorem C5_get_next_rc_tag_correct_witness :
    (get_next_rc_tag
        ⟨[⟨"v1.2.0-rc1", "a"⟩, ⟨"v1.2.0-rc2", "b"⟩], fun _ => none⟩
        1 2 "v").1 = mkRcTagName "v" 1 2 3 ∧
    2 ∈ seriesRcNums [⟨"v1.2.0-rc1", "a"⟩, ⟨"v1.2.0-rc2", "b"⟩] 1 2 "v" :=
  ⟨((C5_get_next_rc_tag_correct
      ⟨[⟨"v1.2.0-rc1", "a"⟩, ⟨"v1.2.0-rc2", "b"⟩], fun _ => none⟩
      1 2 "v" "c" 0).2.1 2 (by decide)).1,
   ((C5_get_next_rc_tag_correct
      ⟨[⟨"v1.2.0-rc1", "a"⟩, ⟨"v1.2.0-rc2", "b"⟩], fun _ => none⟩
      1 2 "v" "c" 0).2.1 2 (by decide)).2.1⟩
